import Mathlib

/-!
Verification of the execution-trace reference-resolution and
flow-reconstruction core of the n8n-mcp-hyly repository.

The embedding covers:
* the shell-embedded JavaScript resolver and flow builder of
  `tools/workflow/n8nwf-96-exec-xray.sh` (`resolveStringReferences`,
  `getNodeOutput`, `getNodeInput`, `getNodeExecutionInfo`, the
  sort-by-startTime and the `executionFlow` construction);
* the SQL/PLpgSQL implementation of
  `tools/postgres/v1.0-base/init/01-hyly.sql`
  (`hyly._resolve_exec_val`, `hyly.build_execution_backtrace`,
  `hyly.build_execution_backtrace_api`);
* the API client's `analyzeExecutionPath` forward walk.

JSON values are embedded as the inductive `JVal`; JavaScript `undefined`
is the extra constructor `jundefined` (it never occurs in jsonb data).
Numbers are embedded as `Int`: every number the algorithms inspect
(start times, durations, array indices) is integral in the source data.
Partial computations (the pointer-chasing recursions, whose termination
depends on the arena contents) take an explicit fuel argument.
-/

/-- A JSON-like value: the data both the JS and the SQL code walk.
`jundefined` is JavaScript `undefined`, produced by out-of-bounds array
access and missing-property access; jsonb values never contain it. -/
inductive JVal where
  | jnull : JVal
  | jundefined : JVal
  | jbool : Bool → JVal
  | jnum : Int → JVal
  | jstr : String → JVal
  | jarr : List JVal → JVal
  | jobj : List (String × JVal) → JVal
deriving BEq, Repr

/-- JavaScript truthiness: `undefined`, `null`, `false`, `0` and the
empty string are falsy; every object and array is truthy. -/
def jsTruthy : JVal → Bool
  | .jnull => false
  | .jundefined => false
  | .jbool b => b
  | .jnum n => n != 0
  | .jstr s => s ≠ ""
  | .jarr _ => true
  | .jobj _ => true

/-- The pointer pattern of all three implementations: a non-empty
string consisting only of decimal digits (regex `^[0-9]+$`). -/
def isDigitStr (s : String) : Bool :=
  !s.data.isEmpty && s.data.all (·.isDigit)

/-- Decimal value of a digit list. -/
def charsToNat (cs : List Char) : Nat :=
  cs.foldl (fun a c => a * 10 + (c.toNat - 48)) 0

/-- Numeric value of a digit-only string (`parseInt` on the JS side,
the `::bigint` / `::int` casts on the SQL side agree on such strings;
leading zeros are dropped by both). -/
def digitVal (s : String) : Nat :=
  charsToNat s.data

/-- Lexicographic comparison of two strings by code points, the `C`
collation of the SQL `ORDER BY key` over node names (the deployment's
collation only changes the tie-break order of node processing, which
the persisted rows do not depend on). -/
def charsLe : List Char → List Char → Bool
  | [], _ => true
  | _ :: _, [] => false
  | a :: as, b :: bs =>
    if a < b then true else if b < a then false else charsLe as bs

/-- Boolean string ordering used for the node-name sort. -/
def strLeB (a b : String) : Bool :=
  charsLe a.data b.data

/-- JavaScript property access `v[k]` for a string key: objects look the
key up (first binding wins, as in a JS object the keys are unique);
everything else yields `undefined`. -/
def jsGet (v : JVal) (k : String) : JVal :=
  match v with
  | .jobj fields =>
    match fields.lookup k with
    | some w => w
    | none => .jundefined
  | _ => .jundefined

/-- JavaScript numeric index access `v[i]`: arrays index their elements,
objects fall back to the string key, strings yield one-character
strings, everything else yields `undefined`. -/
def jsIdx (v : JVal) (i : Nat) : JVal :=
  match v with
  | .jarr elems => elems.getD i .jundefined
  | .jobj _ => jsGet v (toString i)
  | .jstr s =>
    match s.data.get? i with
    | some c => .jstr (String.singleton c)
    | none => .jundefined
  | _ => .jundefined

/-- Contiguous-substring test on character lists, used to embed
JavaScript `String.prototype.includes`. -/
def charsContain (hay needle : List Char) : Bool :=
  match hay with
  | [] => needle.isEmpty
  | _ :: t => needle.isPrefixOf hay || charsContain t needle

/-- JavaScript `path.includes(pat)`. -/
def strIncludes (path pat : String) : Bool :=
  charsContain path.data pat.data

/-- Path extension of `resolveStringReferences`:
`const newPath = path ? path + '.' + key : key`. -/
def newPath (path key : String) : String :=
  if path = "" then key else path ++ "." ++ key

mutual

/-- Fuel-indexed embedding of `resolveStringReferences(obj, data, path)`
from n8nwf-96-exec-xray.sh (lines 115-133).  A digit-only string whose
path does not contain `"headers."` is treated as an arena pointer; the
JS lookup `data[parseInt(obj)]` yields `undefined` when the index is out
of bounds.  Objects recurse fieldwise extending the path with the key,
arrays recurse elementwise with the path unchanged, every other value is
returned unchanged.  `none` means the fuel ran out (the JS recursion
would still be running); every recursive call, including the step from
one object field or array element to the next, consumes one unit of
fuel, so any finite value over any arena is fully resolved by a large
enough fuel unless the pointer chains cycle. -/
def resolveStringReferences : Nat → JVal → List JVal → String → Option JVal
  | 0, _, _, _ => none
  | n + 1, .jstr s, data, path =>
    if isDigitStr s then
      if strIncludes path "headers." then some (.jstr s)
      else resolveStringReferences n (data.getD (digitVal s) .jundefined) data path
    else some (.jstr s)
  | n + 1, .jobj fields, data, path =>
    (resolveFields n fields data path).map .jobj
  | n + 1, .jarr elems, data, path =>
    (resolveElems n elems data path).map .jarr
  | _ + 1, v, _, _ => some v
termination_by structural n _ _ _ => n

/-- Fieldwise resolution of an object (`Object.keys(obj).forEach`),
preserving keys and extending the path per key. -/
def resolveFields :
    Nat → List (String × JVal) → List JVal → String → Option (List (String × JVal))
  | _, [], _, _ => some []
  | 0, _ :: _, _, _ => none
  | n + 1, (k, v) :: rest, data, path => do
    let w ← resolveStringReferences n v data (newPath path k)
    let ws ← resolveFields n rest data path
    pure ((k, w) :: ws)
termination_by structural n _ _ _ => n

/-- Elementwise resolution of an array (`obj.map(...)`), path unchanged. -/
def resolveElems : Nat → List JVal → List JVal → String → Option (List JVal)
  | _, [], _, _ => some []
  | 0, _ :: _, _, _ => none
  | n + 1, v :: rest, data, path => do
    let w ← resolveStringReferences n v data path
    let ws ← resolveElems n rest data path
    pure (w :: ws)
termination_by structural n _ _ _ => n

end

/-- Result of `getNodeExecutionInfo`: the three metadata fields with the
script's `|| 0` and `|| 'success'` defaults already applied. -/
structure NodeExecInfo where
  executionTime : JVal
  startTime : JVal
  executionStatus : JVal
deriving Repr

/-- Embedding of `getNodeExecutionInfo(runData, nodeName)` (script lines
166-176): null unless `runData[nodeName]` and its element 0 are truthy;
`executionTime` and `startTime` default to 0 and `executionStatus` to
"success" via JS `||`. -/
def getNodeExecutionInfo (runData : List (String × JVal)) (nodeName : String) :
    Option NodeExecInfo :=
  let nodeEntry := jsGet (.jobj runData) nodeName
  if !jsTruthy nodeEntry then none
  else
    let nodeExecData := jsIdx nodeEntry 0
    if !jsTruthy nodeExecData then none
    else
      let et := jsGet nodeExecData "executionTime"
      let st := jsGet nodeExecData "startTime"
      let es := jsGet nodeExecData "executionStatus"
      some { executionTime := if jsTruthy et then et else .jnum 0
             startTime := if jsTruthy st then st else .jnum 0
             executionStatus := if jsTruthy es then es else .jstr "success" }

/-- Embedding of `getNodeOutput(runData, nodeName, data)` (script lines
136-148): follows `nodeEntry[0].data.main[0]` under truthiness guards,
requires `mainData[0]` to be an array, and resolves each item with the
empty path.  `none` is the JS `null` result (or exhausted fuel). -/
def getNodeOutput (fuel : Nat) (runData : List (String × JVal)) (nodeName : String)
    (data : List JVal) : Option (List JVal) :=
  let nodeEntry := jsGet (.jobj runData) nodeName
  if !jsTruthy nodeEntry then none
  else
    let nodeExecData := jsIdx nodeEntry 0
    if !jsTruthy nodeExecData then none
    else
      let d := jsGet nodeExecData "data"
      if !jsTruthy d then none
      else if !jsTruthy (jsGet d "main") then none
      else
        let m0 := jsIdx (jsGet d "main") 0
        if !jsTruthy m0 then none
        else
          match m0 with
          | .jarr items => resolveElems fuel items data ""
          | _ => none

/-- Embedding of `getNodeInput(runData, nodeName, data)` (script lines
151-163): identical traversal starting from `inputData` instead of
`data`. -/
def getNodeInput (fuel : Nat) (runData : List (String × JVal)) (nodeName : String)
    (data : List JVal) : Option (List JVal) :=
  let nodeEntry := jsGet (.jobj runData) nodeName
  if !jsTruthy nodeEntry then none
  else
    let nodeExecData := jsIdx nodeEntry 0
    if !jsTruthy nodeExecData then none
    else
      let d := jsGet nodeExecData "inputData"
      if !jsTruthy d then none
      else if !jsTruthy (jsGet d "main") then none
      else
        let m0 := jsIdx (jsGet d "main") 0
        if !jsTruthy m0 then none
        else
          match m0 with
          | .jarr items => resolveElems fuel items data ""
          | _ => none

/-- One entry of the script's `nodeDetails` array. -/
structure NodeDetail where
  nodeName : String
  input : Option (List JVal)
  output : Option (List JVal)
  startTime : JVal
  executionTime : JVal
  executionStatus : JVal
deriving Repr

/-- The per-node extraction loop of the x-ray script (lines 193-210):
iterate the keys of `runData` in order, skip nodes whose
`getNodeExecutionInfo` is null, and extract input and output with the
empty data array `[]`, exactly as the script calls them. -/
def nodeDetails (fuel : Nat) (runData : List (String × JVal)) : List NodeDetail :=
  (runData.map Prod.fst).filterMap fun nodeName =>
    (getNodeExecutionInfo runData nodeName).map fun info =>
      { nodeName := nodeName
        input := getNodeInput fuel runData nodeName []
        output := getNodeOutput fuel runData nodeName []
        startTime := info.startTime
        executionTime := info.executionTime
        executionStatus := info.executionStatus }

/-- Numeric sort key of `(a, b) => a.startTime - b.startTime`.  The
model is faithful for numeric start times (for non-numbers the JS
comparator returns NaN and the sort order is unspecified; the claims
about ordering all constrain start times to numbers). -/
def startKey (d : NodeDetail) : Int :=
  match d.startTime with
  | .jnum n => n
  | _ => 0

/-- Stable insertion into a list sorted ascending for a boolean
comparison: the inserted element goes in front of the first element it
compares no greater than. -/
def ordInsert (le : α → α → Bool) (x : α) : List α → List α
  | [] => [x]
  | y :: ys => if le x y then x :: y :: ys else y :: ordInsert le x ys

/-- Stable ascending insertion sort.  This models both the JS
`Array.prototype.sort` with a numeric comparator (Node's sort is
stable, and for total comparators insertion sort realizes the stable
ascending order) and the SQL `ORDER BY` of an aggregate. -/
def sortLe (le : α → α → Bool) : List α → List α
  | [] => []
  | x :: xs => ordInsert le x (sortLe le xs)

/-- Stable ascending sort by an integer key. -/
def sortByKey (key : α → Int) (l : List α) : List α :=
  sortLe (fun a b => decide (key a ≤ key b)) l

/-- The script's `nodeDetails.sort((a, b) => a.startTime - b.startTime)`. -/
def sortByStart (l : List NodeDetail) : List NodeDetail :=
  sortByKey startKey l

/-- One entry of the script's `data_flow` output array. -/
structure FlowStep where
  step : Nat
  node_name : String
  input : Option (List JVal)
  output : Option (List JVal)
  execution_time_ms : JVal
  execution_status : JVal
  goes_to : String
deriving Repr

/-- The literal sentinel used for the last step's `goes_to`. -/
def sentinelEnd : String := "END (final workflow output)"

/-- The `executionFlow` construction (script lines 216-224), written by
recursion on the ordered details: position `i` (0-based) becomes step
`i + 1`; `goes_to` is the next detail's name, with the JS
`|| 'UNKNOWN'` fallback replacing an empty successor name, and the
sentinel for the last step. -/
def executionFlow (i : Nat) : List NodeDetail → List FlowStep
  | [] => []
  | d :: rest =>
    { step := i + 1
      node_name := d.nodeName
      input := d.input
      output := d.output
      execution_time_ms := d.executionTime
      execution_status := d.executionStatus
      goes_to :=
        match rest with
        | [] => sentinelEnd
        | d2 :: _ => if d2.nodeName = "" then "UNKNOWN" else d2.nodeName } ::
      executionFlow (i + 1) rest

/-- The full data_flow of one x-ray run: extract, sort, build steps. -/
def xrayFlow (fuel : Nat) (runData : List (String × JVal)) : List FlowStep :=
  executionFlow 0 (sortByStart (nodeDetails fuel runData))

/-- Result of the `for` scan of `analyzeExecutionPath` (api client, lines
241-246) looking for the first arena slot of JS type `object` with a
truthy `runData` property.  A `null` arena slot passes the
`typeof === 'object'` test and then crashes the property access
(`null.runData` throws a TypeError); an array slot passes the test but
its `runData` property is `undefined`, so the scan moves on. -/
inductive ScanRes where
  | typeError : ScanRes
  | notFound : ScanRes
  | found : JVal → ScanRes
deriving Repr

/-- The arena scan of `analyzeExecutionPath` for the runData carrier. -/
def findRunDataScan : List JVal → ScanRes
  | [] => .notFound
  | v :: rest =>
    match v with
    | .jnull => .typeError
    | .jobj _ =>
      if jsTruthy (jsGet v "runData") then .found (jsGet v "runData")
      else findRunDataScan rest
    | .jarr _ => findRunDataScan rest
    | _ => findRunDataScan rest

/-- Digit prefix of a character list, as consumed by JS `parseInt`. -/
def digitsPrefix (cs : List Char) : List Char :=
  cs.takeWhile (·.isDigit)

/-- JS `parseInt` on the values relevant here: numbers truncate to
themselves (they are integral in this data), strings parse an optional
sign and a leading digit run, everything else is NaN (`none`).  The
exotic coercions (arrays stringify before parsing) are collapsed into
NaN; no claim depends on them. -/
def parseIntJS : JVal → Option Int
  | .jnum n => some n
  | .jstr s =>
    match s.data with
    | '-' :: rest =>
      if (digitsPrefix rest).isEmpty then none
      else some (-(charsToNat (digitsPrefix rest) : Int))
    | cs =>
      if (digitsPrefix cs).isEmpty then none
      else some ((charsToNat (digitsPrefix cs) : Int))
  | _ => none

/-- JS `Object.entries`: objects list their fields, arrays and strings
enumerate positions with stringified indices, numbers and booleans have
no own properties, and `null`/`undefined` throw a TypeError. -/
def entriesJS : JVal → Except Unit (List (String × JVal))
  | .jobj fields => .ok fields
  | .jarr elems => .ok ((elems.enum).map fun p => (toString p.1, p.2))
  | .jstr s => .ok ((s.data.enum).map fun p => (toString p.1, .jstr (String.singleton p.2)))
  | .jnum _ => .ok []
  | .jbool _ => .ok []
  | .jnull => .error ()
  | .jundefined => .error ()

/-- JS `Object.keys(v).length` for a truthy value. -/
def keysCount : JVal → Nat
  | .jobj fields => fields.length
  | .jarr elems => elems.length
  | .jstr s => s.length
  | _ => 0

/-- One entry of `executionPath` in `analyzeExecutionPath`. -/
structure PathStep where
  nodeName : String
  startTime : JVal
  executionTime : JVal
  hasError : Bool
  outputItems : Nat
deriving Repr

/-- Sort key of `new Date(a.startTime).getTime()`: for a numeric start
time `Date(n).getTime()` is `n` itself; non-numeric values give NaN,
where the JS sort order is unspecified (modelled as key 0). -/
def dateKey (p : PathStep) : Int :=
  match p.startTime with
  | .jnum n => n
  | _ => 0

/-- Result of `analyzeExecutionPath`: the two labeled failure objects
(`'Execution data not available'` is outside this model, which starts
at the parsed arena), the TypeError path that unwinds through the catch
block into `handleN8nApiError`, and the success object. -/
inductive PathAnalysis where
  | typeError : PathAnalysis
  | noRunData : PathAnalysis
  | analyzed : List PathStep → Nat → PathAnalysis
deriving Repr

/-- Embedding of `N8nApiClient.analyzeExecutionPath` (api client, lines
237-282) from the point where the execution data array has been parsed:
scan for the runData carrier, return the labeled
`'RunData index not found in execution'` failure when the scan finds
none, dereference the carrier's `runData` value as an index, walk the
entries of the run-data map keeping array-shaped nonempty node entries,
and sort the collected path by start time.  A `parseInt` NaN makes the
later `Object.entries(undefined)` throw, and a found `"-1"` value is
indistinguishable from the not-found marker. -/
def analyzeExecutionPath (executionData : List JVal) : PathAnalysis :=
  match findRunDataScan executionData with
  | .typeError => .typeError
  | .notFound => .noRunData
  | .found rv =>
    match parseIntJS rv with
    | none => .typeError
    | some i =>
      if i = -1 then .noRunData
      else
        let runData :=
          if 0 ≤ i ∧ i.toNat < executionData.length then
            executionData.getD i.toNat .jundefined
          else .jundefined
        match entriesJS runData with
        | .error _ => .typeError
        | .ok entries =>
          let path := entries.filterMap fun p =>
            match p.2 with
            | .jarr (nd :: _) =>
              some { nodeName := p.1
                     startTime := jsGet nd "startTime"
                     executionTime := jsGet nd "executionTime"
                     hasError := jsTruthy (jsGet nd "error")
                     outputItems :=
                       if jsTruthy (jsGet nd "data") then keysCount (jsGet nd "data")
                       else 0 }
            | _ => none
          .analyzed (sortByKey dateKey path) path.length

/-- Result of one run of `hyly._resolve_exec_val`: the returned jsonb, a
`bigint out of range` error from `s::bigint` on an oversized digit
string, or exhausted fuel (the SQL LOOP would still be running). -/
inductive SqlRes where
  | ok : JVal → SqlRes
  | overflow : SqlRes
  | outOfFuel : SqlRes
deriving Repr

/-- The signed 64-bit bound of the SQL `bigint` type. -/
def bigintBound : Nat := 2 ^ 63

/-- The LOOP body of `hyly._resolve_exec_val` iterated with fuel: while
the value is a digit-only string (regex `^\d+$`) it is cast to bigint
(an overflow raises), an in-bounds index steps to that arena slot and
continues, an out-of-bounds index returns the string itself
(`to_jsonb(s)`), and any other value exits the loop and is returned. -/
def resolveChain : Nat → JVal → List JVal → SqlRes
  | 0, _, _ => .outOfFuel
  | n + 1, .jstr s, elems =>
    if isDigitStr s then
      if bigintBound ≤ digitVal s then .overflow
      else if digitVal s < elems.length then
        resolveChain n (elems.getD (digitVal s) .jnull) elems
      else .ok (.jstr s)
    else .ok (.jstr s)
  | _ + 1, v, _ => .ok v

/-- Embedding of `hyly._resolve_exec_val(val, exec_arr)` (01-hyly.sql,
lines 21-53): when `exec_arr` is not a jsonb array the value is returned
unchanged without entering the loop; otherwise the pointer chain is
followed. -/
def resolveExecVal (fuel : Nat) (val arr : JVal) : SqlRes :=
  match arr with
  | .jarr elems => resolveChain fuel val elems
  | _ => .ok val

/-- The arena index the resolver's loop dereferences next from a given
value, if any: defined exactly when the value is an in-bounds digit
string below the bigint bound. -/
def ptrStepIdx (elems : List JVal) : JVal → Option Nat
  | .jstr s =>
    if isDigitStr s && !(bigintBound ≤ digitVal s) && digitVal s < elems.length then
      some (digitVal s)
    else none
  | _ => none

/-- The list of arena indices the resolver dereferences in its first `n`
steps from a value (shorter when the loop exits earlier). -/
def ptrTrace (elems : List JVal) : Nat → JVal → List Nat
  | 0, _ => []
  | n + 1, v =>
    match ptrStepIdx elems v with
    | some i => i :: ptrTrace elems n (elems.getD i .jnull)
    | none => []

/-- Termination of `hyly._resolve_exec_val` on a given input: some
amount of fuel makes the loop finish (return or raise). -/
def ResolveTerminates (val arr : JVal) : Prop :=
  ∃ n, resolveExecVal n val arr ≠ .outOfFuel

mutual

/-- JSON text of a jsonb value, as produced when Postgres renders a
composite for `->>`.  Keys and strings are quoted without re-escaping
(none of the data the proofs touch needs escapes). -/
def renderJ : JVal → String
  | .jnull => "null"
  | .jundefined => "undefined"
  | .jbool true => "true"
  | .jbool false => "false"
  | .jnum n => toString n
  | .jstr s => "\"" ++ s ++ "\""
  | .jarr es => "[" ++ renderElems es ++ "]"
  | .jobj fs => "\x7b" ++ renderFields fs ++ "\x7d"
termination_by v => sizeOf v

/-- Comma-joined rendering of array elements. -/
def renderElems : List JVal → String
  | [] => ""
  | [v] => renderJ v
  | v :: rest => renderJ v ++ ", " ++ renderElems rest
termination_by l => sizeOf l

/-- Comma-joined rendering of object fields. -/
def renderFields : List (String × JVal) → String
  | [] => ""
  | [(k, v)] => "\"" ++ k ++ "\": " ++ renderJ v
  | (k, v) :: rest => "\"" ++ k ++ "\": " ++ renderJ v ++ ", " ++ renderFields rest
termination_by l => sizeOf l

end

/-- A jsonb value as SQL text (the second half of `->>`): strings yield
their content unquoted, JSON null yields SQL NULL, other values their
JSON text. -/
def jTextOf : JVal → Option String
  | .jnull => none
  | .jstr s => some s
  | .jnum n => some (toString n)
  | .jbool true => some "true"
  | .jbool false => some "false"
  | v => some (renderJ v)

/-- The jsonb `->` operator with a text key (`jsonb_object_field`; SQL
NULL propagates).  Postgres resolves a quoted literal key such as `'0'`
to this text-key operator, which performs object-field lookup only:
on an array (or any other non-object jsonb) it yields SQL NULL — so
`node_info ->> '0'` and `main_data ->> '0'` in the build function are
NULL on the array-shaped entries of the compressed format. -/
def jField : Option JVal → String → Option JVal
  | some (.jobj fields), k => fields.lookup k
  | _, _ => none

/-- The jsonb `->>` operator with a text key. -/
def jFieldText (v : Option JVal) (k : String) : Option String :=
  (jField v k).bind jTextOf

/-- The jsonb `?` operator: key presence on objects, top-level string
membership on arrays, equality on string scalars. -/
def jHasKey : Option JVal → String → Bool
  | some (.jobj fields), k => (fields.lookup k).isSome
  | some (.jarr elems), k => elems.contains (.jstr k)
  | some (.jstr s), k => s == k
  | _, _ => false

/-- The jsonb `->` operator with an integer index on an array: negative
indices count from the end, anything out of range is SQL NULL. -/
def jArrGet (elems : List JVal) (i : Int) : Option JVal :=
  if 0 ≤ i then elems.get? i.toNat
  else if (-i).toNat ≤ elems.length then elems.get? (elems.length - (-i).toNat)
  else none

/-- Errors a run of the SQL functions can raise; any of them aborts the
surrounding transaction, so the table keeps its prior contents. -/
inductive SqlErr where
  | noExecData : SqlErr
  | notArrayErr : SqlErr
  | castErr : SqlErr
  | intOverflow : SqlErr
  | noRunData : SqlErr
  | nullForeach : SqlErr
  | nullLoopBound : SqlErr
  | notNullViolation : SqlErr
  | pkViolation : SqlErr
  | outOfFuel : SqlErr
deriving Repr, DecidableEq

/-- Text of an optional sign followed by digits, the shape the SQL
integer casts accept. -/
def parseSqlInt (s : String) : Option Int :=
  match s.data with
  | '-' :: cs =>
    if cs ≠ [] && cs.all (·.isDigit) then some (-(charsToNat cs : Int)) else none
  | '+' :: cs =>
    if cs ≠ [] && cs.all (·.isDigit) then some ((charsToNat cs : Int)) else none
  | cs =>
    if cs ≠ [] && cs.all (·.isDigit) then some ((charsToNat cs : Int)) else none

/-- The SQL `::int` cast of a nullable text: NULL propagates, malformed
text raises, and values outside the signed 32-bit range raise. -/
def castInt : Option String → Except SqlErr (Option Int)
  | none => .ok none
  | some s =>
    match parseSqlInt s with
    | none => .error .castErr
    | some n =>
      if n < -(2 ^ 31 : Int) || (2 ^ 31 : Int) ≤ n then .error .intOverflow
      else .ok (some n)

/-- The SQL `::bigint` cast of a nullable text. -/
def castBigint : Option String → Except SqlErr (Option Int)
  | none => .ok none
  | some s =>
    match parseSqlInt s with
    | none => .error .castErr
    | some n =>
      if n < -(2 ^ 63 : Int) || (2 ^ 63 : Int) ≤ n then .error .intOverflow
      else .ok (some n)

/-- The `jsonb_array_length` function: NULL propagates, a non-array
argument raises. -/
def jsonbArrayLength : Option JVal → Except SqlErr (Option Nat)
  | none => .ok none
  | some (.jarr elems) => .ok (some elems.length)
  | some _ => .error .notArrayErr

/-- Hexadecimal digit test for the uuid shape. -/
def isHexChar (c : Char) : Bool :=
  c.isDigit || ('a' ≤ c && c ≤ 'f') || ('A' ≤ c && c ≤ 'F')

/-- The canonical 8-4-4-4-12 uuid shape accepted by the `::uuid` cast
(Postgres also takes some variant spellings; the workflow documents use
the canonical one). -/
def isUuidStr (s : String) : Bool :=
  s.length = 36 &&
    (s.data.enum.all fun p =>
      if p.1 = 8 || p.1 = 13 || p.1 = 18 || p.1 = 23 then p.2 = '-'
      else isHexChar p.2)

/-- One persisted row of the `hyly.execution_backtrace` table
(primary key `(execution_id, step_index)`). -/
structure BacktraceRow where
  execution_id : Int
  step_index : Int
  node_uuid : Option String
  node_name : String
  input_json : Option JVal
  output_json : Option JVal
  next_node_uuid : Option String
  next_node_name : Option String
deriving Repr

/-- One collected `node_details` record, the jsonb
`jsonb_build_object('nodeName', ..., 'output', ..., 'startTime', ...,
'executionTime', ..., 'executionStatus', ...)` of lines 176-184 as a
structure (the jsonb round trip preserves exactly these fields).
`output` is either the resolved array or JSON null. -/
structure SqlDetail where
  nodeName : String
  output : JVal
  startTime : Int
  executionTime : Int
  executionStatus : String
deriving Repr

/-- The scan of lines 91-98: the `runData` value of the first arena
slot that is a jsonb object carrying that key. -/
def findRunDataSql : List JVal → Option JVal
  | [] => none
  | .jobj fields :: rest =>
    match fields.lookup "runData" with
    | some w => some w
    | none => findRunDataSql rest
  | _ :: rest => findRunDataSql rest

/-- The `jsonb_object_keys` set-returning function: no rows for SQL
NULL, the keys for an object, an error for any other jsonb. -/
def jsonbObjectKeys : Option JVal → Except SqlErr (List String)
  | none => .ok []
  | some (.jobj fields) => .ok (fields.map Prod.fst)
  | some _ => .error .notArrayErr

/-- The output pointer chain of lines 147-173 for one node: `data` →
`main` → port 0 → item pointers, each item pushed through
`hyly._resolve_exec_val`; a missing hop degrades to JSON null output,
an out-of-bounds port array makes the `FOR j IN 0..NULL-1` bound NULL
and raises. -/
def extractSqlOutput (fuel : Nat) (elems : List JVal) (exec_data_obj : Option JVal) :
    Except SqlErr JVal := do
  if jHasKey exec_data_obj "data" then do
    let didx ← castInt (jFieldText exec_data_obj "data")
    let node_data_obj := didx.bind (jArrGet elems)
    if jHasKey node_data_obj "main" then do
      let midx ← castInt (jFieldText node_data_obj "main")
      let main_data := midx.bind (jArrGet elems)
      let ml ← jsonbArrayLength main_data
      if 0 < ml.getD 0 then do
        let oidx ← castInt (jFieldText main_data "0")
        match oidx.bind (jArrGet elems) with
        | none => throw SqlErr.nullLoopBound
        | some (.jarr outs) => do
          let resolved ← resolveItems fuel elems outs
          if resolved.length > 0 then pure (.jarr resolved) else pure .jnull
        | some _ => throw SqlErr.notArrayErr
      else pure .jnull
    else pure .jnull
  else pure .jnull
where
  /-- The `FOR j` loop of lines 160-170: each position of the port
  array names an item index; the item is fetched and resolved, a NULL
  hop stays NULL and `array_to_json` renders it as JSON null. -/
  resolveItems (fuel : Nat) (elems : List JVal) : List JVal → Except SqlErr (List JVal)
    | [] => pure []
    | o :: rest => do
      let iidx ← castInt (jTextOf o)
      let r ← match iidx.bind (jArrGet elems) with
        | none => pure JVal.jnull
        | some it =>
          match resolveExecVal fuel it (.jarr elems) with
          | .ok v => pure v
          | .overflow => throw SqlErr.intOverflow
          | .outOfFuel => throw SqlErr.outOfFuel
      let rs ← resolveItems fuel elems rest
      pure (r :: rs)

/-- The FOREACH body of lines 114-189 for one node name: nodes whose
runData pointer is missing, not digit-shaped, or out of bounds are
skipped (no record); a node entry that is not an array raises; within
an entry, the timing fields are read with COALESCE defaults.  Since the
entry that passes the `jsonb_array_length` guard is an array,
`node_info ->> '0'` (line 140) is SQL NULL, `exec_data_obj` is NULL,
and the defaults always apply: the record's start time is 0, its
status "success", and the output chain of lines 147-173 is never
entered. -/
def extractSqlDetail (fuel : Nat) (elems : List JVal) (run_data : Option JVal)
    (node_name : String) : Except SqlErr (Option SqlDetail) :=
  match jFieldText run_data node_name with
  | none => .ok none
  | some s =>
    if isDigitStr s then
      match castInt (some s) with
      | .error e => .error e
      | .ok idx =>
        if (idx.getD 0) < (elems.length : Int) then
          match jsonbArrayLength (jArrGet elems (idx.getD 0)) with
          | .error e => .error e
          | .ok li =>
            if 0 < li.getD 0 then
              match castInt (jFieldText (jArrGet elems (idx.getD 0)) "0") with
              | .error e => .error e
              | .ok d0 =>
                match castBigint (jFieldText (d0.bind (jArrGet elems)) "startTime") with
                | .error e => .error e
                | .ok st =>
                  match castInt (jFieldText (d0.bind (jArrGet elems)) "executionTime") with
                  | .error e => .error e
                  | .ok et =>
                    match extractSqlOutput fuel elems (d0.bind (jArrGet elems)) with
                    | .error e => .error e
                    | .ok output =>
                      .ok (some
                        { nodeName := node_name
                          output := output
                          startTime := st.getD 0
                          executionTime := et.getD 0
                          executionStatus :=
                            (jFieldText (d0.bind (jArrGet elems)) "executionStatus").getD
                              "success" })
            else .ok none
        else .ok none
    else .ok none

/-- The FOREACH loop over all (sorted) node names. -/
def extractAllDetails (fuel : Nat) (elems : List JVal) (run_data : Option JVal) :
    List String → Except SqlErr (List SqlDetail)
  | [] => .ok []
  | n :: rest =>
    match extractSqlDetail fuel elems run_data n with
    | .error e => .error e
    | .ok d =>
      match extractAllDetails fuel elems run_data rest with
      | .error e => .error e
      | .ok ds => .ok (match d with | some x => x :: ds | none => ds)

/-- Lines 192-195: keep the details with positive start time and sort
them ascending by start time (`array_agg(... ORDER BY startTime)` over
`unnest(...) WHERE startTime > 0`). -/
def sqlFlowDetails (details : List SqlDetail) : List SqlDetail :=
  sortByKey (fun d => d.startTime) (details.filter fun d => decide (0 < d.startTime))

/-- The `nodes` array of the companion workflow document: no rows when
the document or its `nodes` field is SQL NULL, an error when `nodes` is
not an array (`jsonb_array_elements` raises). -/
def wfNodesList : Option JVal → Except SqlErr (List JVal)
  | none => .ok []
  | some wf =>
    match jField (some wf) "nodes" with
    | none => .ok []
    | some (.jarr nodes) => .ok nodes
    | some _ => .error .notArrayErr

/-- The uuid-matching loop of lines 219-238 for one name: every
workflow node whose `name` matches reassigns the uuid variable, so the
last match wins; a malformed id is caught and left NULL. -/
def lookupUuid (nodes : List JVal) (name : String) : Option String :=
  match (nodes.filter fun nd => decide (jFieldText (some nd) "name" = some name)).getLast? with
  | some nd =>
    match jFieldText (some nd) "id" with
    | some s => if isUuidStr s then some s else none
    | none => none
  | none => none

/-- The INSERT loop of lines 198-255: the record at (1-based) loop
position `i` is written with `step_index i - 1`, here generated with a
0-based counter; `next_node` is the following record's name, NULL for
the last; `input_json` is the literal `'{}'::jsonb` placeholder (the
source comments "Input will be added in future iteration"). -/
def buildRows (pid : Int) (nodes : List JVal) : Nat → List SqlDetail → List BacktraceRow
  | _, [] => []
  | i, d :: rest =>
    let next_node : Option String :=
      match rest with
      | [] => none
      | d2 :: _ => some d2.nodeName
    { execution_id := pid
      step_index := (i : Int)
      node_uuid := lookupUuid nodes d.nodeName
      node_name := d.nodeName
      input_json := some (.jobj [])
      output_json := some d.output
      next_node_uuid := next_node.bind fun nn => lookupUuid nodes nn
      next_node_name := next_node } :: buildRows pid nodes (i + 1) rest

/-- Embedding of `hyly.build_execution_backtrace(p_execution_id)`
(01-hyly.sql, lines 54-259) as one transaction over the backtrace
table: `tbl` is the table before the call, `exec_data_opt` the
`data::jsonb` of the execution's `execution_data` row (`none` when that
row is missing), `wf_data` its `workflowData::jsonb`.  Success would
return the table with the old rows of `pid` deleted and the new ones
appended, but no input reaches that branch: every extracted record's
start time is 0 (see `extractSqlDetail`), the `startTime > 0` filter
empties the details, and the never-run INSERT loop's
`array_length(NULL, 1)` bound raises.  Any raised error rolls the
transaction back, so the caller keeps `tbl`. -/
def buildExecutionBacktrace (fuel : Nat) (tbl : List BacktraceRow) (pid : Int)
    (exec_data_opt : Option JVal) (wf_data : Option JVal) :
    Except SqlErr (List BacktraceRow) :=
  match exec_data_opt with
  | none => .error .noExecData
  | some exec_data =>
    match exec_data with
    | .jarr elems =>
      match findRunDataSql elems with
      | none => .error .noRunData
      | some rdVal =>
        match castInt (jTextOf rdVal) with
        | .error e => .error e
        | .ok idxOpt =>
          if idxOpt = some (-1) then .error .noRunData
          else
            match jsonbObjectKeys (idxOpt.bind (jArrGet elems)) with
            | .error e => .error e
            | .ok names =>
              if (sortLe strLeB names).isEmpty then
                .error .nullForeach
              else
                match extractAllDetails fuel elems (idxOpt.bind (jArrGet elems))
                    (sortLe strLeB names) with
                | .error e => .error e
                | .ok details =>
                  if (sqlFlowDetails details).isEmpty then .error .nullLoopBound
                  else
                    match wfNodesList wf_data with
                    | .error e => .error e
                    | .ok nodes =>
                      .ok ((tbl.filter fun r => r.execution_id != pid) ++
                           buildRows pid nodes 0 (sqlFlowDetails details))
    | _ => .error .notArrayErr

/-- The per-step INSERT of `hyly.build_execution_backtrace_api` (lines
350-369): `step_index` is `(flow_step ->> 'step')::int - 1`, a missing
step number or node name violates a NOT NULL constraint, `goes_to`
equal to the sentinel becomes NULL, input and output are persisted
verbatim from the flow step. -/
def apiRows (pid : Int) : List JVal → Except SqlErr (List BacktraceRow)
  | [] => .ok []
  | step :: rest =>
    match castInt (jFieldText (some step) "step") with
    | .error e => .error e
    | .ok none => .error .notNullViolation
    | .ok (some n) =>
      match jFieldText (some step) "node_name" with
      | none => .error .notNullViolation
      | some node_name =>
        match apiRows pid rest with
        | .error e => .error e
        | .ok rs =>
          .ok ({ execution_id := pid
                 step_index := n - 1
                 node_uuid := none
                 node_name := node_name
                 input_json := jField (some step) "input"
                 output_json := jField (some step) "output"
                 next_node_uuid := none
                 next_node_name :=
                   match jFieldText (some step) "goes_to" with
                   | some s => if s = sentinelEnd then none else some s
                   | none => none } :: rs)

/-- Embedding of `hyly.build_execution_backtrace_api(p_execution_id)`
(01-hyly.sql, lines 322-394): the prior rows of `pid` are always
deleted; with a populated temp result its `data_flow` array is
persisted one row per step (a duplicated step number would violate the
primary key), a missing `data_flow` field leaves only the delete, and
with no temp result a placeholder row with step_index 0 is written. -/
def buildExecutionBacktraceApi (tbl : List BacktraceRow) (pid : Int)
    (tempResult : Option JVal) : Except SqlErr (List BacktraceRow) :=
  match tempResult with
  | some execution_json =>
    match jField (some execution_json) "data_flow" with
    | none => .ok (tbl.filter fun r => r.execution_id != pid)
    | some (.jarr steps) =>
      match apiRows pid steps with
      | .error e => .error e
      | .ok rows =>
        if (rows.map fun r => r.step_index).Nodup then
          .ok ((tbl.filter fun r => r.execution_id != pid) ++ rows)
        else .error .pkViolation
    | some _ => .error .notArrayErr
  | none =>
    .ok ((tbl.filter fun r => r.execution_id != pid) ++
      [{ execution_id := pid
         step_index := 0
         node_uuid := none
         node_name := "EXTERNAL_PROCESSING_REQUIRED"
         input_json := some (.jobj [("message", .jstr "Call external API to process this execution")])
         output_json := some (.jobj [("endpoint", .jstr ("http://172.23.0.9:3001/execution/" ++ toString pid))])
         next_node_uuid := none
         next_node_name := none }])

/-- A well-formed compressed execution arena with one node "A": slot 0
carries the runData pointer, slot 1 is the run-data map, slot 2 the
node entry, slot 3 the execution record (startTime 1000, duration 50,
output chain through slots 4-7, input chain through slots 8-11). -/
def sampleArena : List JVal :=
  [ .jobj [("runData", .jstr "1")],
    .jobj [("A", .jstr "2")],
    .jarr [.jstr "3"],
    .jobj [("startTime", .jnum 1000), ("executionTime", .jnum 50),
           ("data", .jstr "4"), ("inputData", .jstr "8")],
    .jobj [("main", .jstr "5")],
    .jarr [.jstr "6"],
    .jarr [.jstr "7"],
    .jobj [("value", .jnum 42)],
    .jobj [("main", .jstr "9")],
    .jarr [.jstr "10"],
    .jarr [.jstr "11"],
    .jobj [("inv", .jnum 7)] ]

/-- The sample arena as the `data::jsonb` value. -/
def sampleExecData : JVal := .jarr sampleArena

/-- One flow step of a temp-result document: step number 1, node "A",
explicit input and output, sentinel goes_to. -/
def sampleApiStep : JVal :=
  .jobj [("step", .jnum 1), ("node_name", .jstr "A"),
         ("input", .jarr [.jnum 1]), ("output", .jarr [.jnum 2]),
         ("goes_to", .jstr "END (final workflow output)")]

/-- A populated temp-result document for the api persister: one flow
step numbered 1 for node "A" with explicit input and output. -/
def sampleApiResult : JVal :=
  .jobj [("data_flow", .jarr [sampleApiStep])]

/-- The row the api persister stores for `sampleApiResult` at
execution 3. -/
def sampleApiRow : BacktraceRow :=
  { execution_id := 3
    step_index := 0
    node_uuid := none
    node_name := "A"
    input_json := some (.jarr [.jnum 1])
    output_json := some (.jarr [.jnum 2])
    next_node_uuid := none
    next_node_name := none }

/-- The two-slot cyclic arena: slot 0 points at slot 1 and slot 1
points back at slot 0. -/
def cycArena : List JVal := [.jstr "1", .jstr "0"]

/-- An uncompressed runData map with two nodes and distinct positive
start times, as the x-ray script reads it from the API. -/
def sampleRunData : List (String × JVal) :=
  [ ("Start", .jarr [.jobj [("startTime", .jnum 100), ("executionTime", .jnum 5)]]),
    ("End", .jarr [.jobj [("startTime", .jnum 200), ("executionTime", .jnum 7)]]) ]

/-- A runData map whose second-starting node has the empty string as
its name (a legal JSON object key). -/
def emptyNameRunData : List (String × JVal) :=
  [ ("", .jarr [.jobj [("startTime", .jnum 2)]]),
    ("A", .jarr [.jobj [("startTime", .jnum 1)]]) ]

/-- A runData map whose only node carries no startTime field, so the
extracted record gets the `|| 0` default. -/
def noTimingRunData : List (String × JVal) :=
  [("A", .jarr [.jobj [("executionStatus", .jstr "error")]])]

/-- A start-time value that is a positive number, the well-formedness
the ordering claims assume of extracted records. -/
def isPosNum : JVal → Bool
  | .jnum n => decide (0 < n)
  | _ => false

theorem except_bind_ok {ε α β : Type} (a : α) (f : α → Except ε β) :
    (Except.ok a >>= f) = f a := rfl

theorem except_bind_err {ε α β : Type} (e : ε) (f : α → Except ε β) :
    ((Except.error e : Except ε α) >>= f) = Except.error e := rfl

theorem ordInsert_perm (le : α → α → Bool) (x : α) (l : List α) :
    (ordInsert le x l).Perm (x :: l) := by
  induction l with
  | nil => exact List.Perm.refl _
  | cons y ys ih =>
    simp only [ordInsert]
    split
    · exact List.Perm.refl _
    · exact (ih.cons y).trans (List.Perm.swap x y ys)

theorem sortLe_perm (le : α → α → Bool) (l : List α) : (sortLe le l).Perm l := by
  induction l with
  | nil => exact List.Perm.refl _
  | cons x xs ih => exact (ordInsert_perm le x (sortLe le xs)).trans (ih.cons x)

theorem pairwise_ordInsert {le : α → α → Bool}
    (htot : ∀ a b, le a b = true ∨ le b a = true)
    (htrans : ∀ a b c, le a b = true → le b c = true → le a c = true)
    (x : α) {l : List α} (h : l.Pairwise fun a b => le a b = true) :
    (ordInsert le x l).Pairwise fun a b => le a b = true := by
  induction l with
  | nil => simp [ordInsert]
  | cons y ys ih =>
    rcases List.pairwise_cons.mp h with ⟨hy, hys⟩
    simp only [ordInsert]
    split
    · rename_i hxy
      refine List.pairwise_cons.mpr ⟨?_, h⟩
      intro z hz
      rcases List.mem_cons.mp hz with rfl | hz
      · exact hxy
      · exact htrans x y z hxy (hy z hz)
    · rename_i hxy
      have hyx : le y x = true := by
        rcases htot x y with h' | h'
        · exact absurd h' hxy
        · exact h'
      refine List.pairwise_cons.mpr ⟨?_, ih hys⟩
      intro z hz
      rcases List.mem_cons.mp ((ordInsert_perm le x ys).mem_iff.mp hz) with rfl | hz
      · exact hyx
      · exact hy z hz

theorem pairwise_sortLe {le : α → α → Bool}
    (htot : ∀ a b, le a b = true ∨ le b a = true)
    (htrans : ∀ a b c, le a b = true → le b c = true → le a c = true)
    (l : List α) : (sortLe le l).Pairwise fun a b => le a b = true := by
  induction l with
  | nil => simp [sortLe]
  | cons x xs ih => exact pairwise_ordInsert htot htrans x ih

theorem pairwise_sortByKey (key : α → Int) (l : List α) :
    (sortByKey key l).Pairwise fun a b => key a ≤ key b := by
  have h := @pairwise_sortLe _ (fun a b => decide (key a ≤ key b))
    (fun a b => by rcases Int.le_total (key a) (key b) with h | h <;> simp [h])
    (fun a b c hab hbc => by
      simp only [decide_eq_true_eq] at hab hbc ⊢
      exact le_trans hab hbc) l
  exact h.imp fun hab => by simpa using hab

theorem sortByKey_perm (key : α → Int) (l : List α) : (sortByKey key l).Perm l :=
  sortLe_perm _ l

theorem sortByKey_pairwise_lt {key : α → Int} {l : List α}
    (hnd : (l.map key).Nodup) :
    (sortByKey key l).Pairwise fun a b => key a < key b := by
  have hperm : (sortByKey key l).Perm l := sortByKey_perm key l
  have hnd' : ((sortByKey key l).map key).Nodup :=
    ((hperm.map key).nodup_iff).mpr hnd
  have hne : (sortByKey key l).Pairwise fun a b => key a ≠ key b :=
    List.pairwise_map.mp hnd'
  have hle := pairwise_sortByKey key l
  exact (hle.and hne).imp fun h => lt_of_le_of_ne h.1 h.2

theorem executionFlow_length (i : Nat) (l : List NodeDetail) :
    (executionFlow i l).length = l.length := by
  induction l generalizing i with
  | nil => simp [executionFlow]
  | cons d rest ih => simp [executionFlow, ih]

theorem executionFlow_map_name (i : Nat) (l : List NodeDetail) :
    (executionFlow i l).map (fun s => s.node_name) = l.map (fun d => d.nodeName) := by
  induction l generalizing i with
  | nil => simp [executionFlow]
  | cons d rest ih => simp [executionFlow, ih]

theorem executionFlow_map_step (i : Nat) (l : List NodeDetail) :
    (executionFlow i l).map (fun s => s.step) = List.range' (i + 1) l.length := by
  induction l generalizing i with
  | nil => simp [executionFlow]
  | cons d rest ih => simp [executionFlow, ih, List.range'_succ]

theorem executionFlow_chain (i : Nat) (l : List NodeDetail)
    (hn : ∀ d ∈ l, d.nodeName ≠ "") :
    List.Chain' (fun a b => a.goes_to = b.node_name) (executionFlow i l) := by
  induction l generalizing i with
  | nil => simp [executionFlow]
  | cons d rest ih =>
    cases rest with
    | nil => simp [executionFlow]
    | cons d2 rest2 =>
      have htail := ih (i + 1) (fun x hx => hn x (List.mem_cons_of_mem d hx))
      have h2 : d2.nodeName ≠ "" := hn d2 (by simp)
      simp only [executionFlow] at htail ⊢
      exact List.chain'_cons.mpr ⟨by simp [h2], htail⟩

theorem executionFlow_getLast_goesTo (i : Nat) (l : List NodeDetail) (s : FlowStep)
    (h : (executionFlow i l).getLast? = some s) : s.goes_to = sentinelEnd := by
  induction l generalizing i with
  | nil => simp [executionFlow] at h
  | cons d rest ih =>
    cases rest with
    | nil =>
      simp [executionFlow] at h
      rw [← h]
    | cons d2 rest2 =>
      apply ih (i + 1)
      simp only [executionFlow] at h ⊢
      rwa [List.getLast?_cons_cons] at h

theorem buildRows_length (pid : Int) (nodes : List JVal) :
    ∀ (i : Nat) (l : List SqlDetail), (buildRows pid nodes i l).length = l.length
  | _, [] => by simp [buildRows]
  | i, d :: rest => by
    simp [buildRows, buildRows_length pid nodes (i + 1) rest]

theorem buildRows_map_stepIdx (pid : Int) (nodes : List JVal) :
    ∀ (i : Nat) (l : List SqlDetail),
      (buildRows pid nodes i l).map (fun r => r.step_index) =
        (List.range' i l.length).map (fun n : Nat => (n : Int))
  | _, [] => by simp [buildRows]
  | i, d :: rest => by
    simp [buildRows, buildRows_map_stepIdx pid nodes (i + 1) rest, List.range'_succ]

theorem buildRows_mem (pid : Int) (nodes : List JVal) :
    ∀ (i : Nat) (l : List SqlDetail) (r : BacktraceRow), r ∈ buildRows pid nodes i l →
      r.execution_id = pid ∧ r.input_json = some (.jobj []) ∧
        ∃ d, d ∈ l ∧ r.node_name = d.nodeName ∧ r.output_json = some d.output
  | _, [], r, h => by simp [buildRows] at h
  | i, d :: rest, r, h => by
    simp only [buildRows] at h
    rcases List.mem_cons.mp h with rfl | h'
    · exact ⟨rfl, rfl, d, List.mem_cons_self d rest, rfl, rfl⟩
    · rcases buildRows_mem pid nodes (i + 1) rest r h' with ⟨h1, h2, d', hd', h3, h4⟩
      exact ⟨h1, h2, d', List.mem_cons_of_mem d hd', h3, h4⟩

theorem sqlFlowDetails_pos (details : List SqlDetail) :
    ∀ d ∈ sqlFlowDetails details, 0 < d.startTime := by
  intro d hd
  have hmem := (sortByKey_perm (fun x : SqlDetail => x.startTime) _).mem_iff.mp hd
  have := (List.mem_filter.mp hmem).2
  exact of_decide_eq_true this

theorem extractSqlOutput_none (fuel : Nat) (elems : List JVal) :
    extractSqlOutput fuel elems none = .ok .jnull := rfl

theorem extractSqlDetail_startTime_zero (fuel : Nat) (elems : List JVal)
    (run_data : Option JVal) (n : String) (d : SqlDetail)
    (h : extractSqlDetail fuel elems run_data n = .ok (some d)) :
    d.startTime = 0 := by
  simp only [extractSqlDetail] at h
  cases hft : jFieldText run_data n with
  | none =>
    simp only [hft] at h
    injection h with h'
    exact Option.noConfusion h'
  | some s =>
    simp only [hft] at h
    by_cases hdig : isDigitStr s = true
    case neg =>
      rw [if_neg hdig] at h
      injection h with h'
      exact Option.noConfusion h'
    case pos =>
      rw [if_pos hdig] at h
      cases hc : castInt (some s) with
      | error e => simp only [hc] at h; exact Except.noConfusion h
      | ok idx =>
        simp only [hc] at h
        by_cases hlt : (idx.getD 0) < (elems.length : Int)
        case neg =>
          rw [if_neg hlt] at h
          injection h with h'
          exact Option.noConfusion h'
        case pos =>
          rw [if_pos hlt] at h
          cases hlen : jsonbArrayLength (jArrGet elems (idx.getD 0)) with
          | error e => simp only [hlen] at h; exact Except.noConfusion h
          | ok li =>
            simp only [hlen] at h
            by_cases hpos : 0 < li.getD 0
            case neg =>
              rw [if_neg hpos] at h
              injection h with h'
              exact Option.noConfusion h'
            case pos =>
              rw [if_pos hpos] at h
              cases hni : jArrGet elems (idx.getD 0) with
              | none =>
                rw [hni] at hlen
                have hl' : (Except.ok (none : Option Nat) :
                    Except SqlErr (Option Nat)) = .ok li := hlen
                injection hl' with hl2
                rw [← hl2] at hpos
                exact absurd hpos (by decide)
              | some v =>
                cases v with
                | jarr xs =>
                  cases hd0 : castInt (jFieldText (jArrGet elems (idx.getD 0)) "0") with
                  | error e => simp only [hd0] at h; exact Except.noConfusion h
                  | ok d0 =>
                    simp only [hd0] at h
                    rw [hni] at hd0
                    have hd' : (Except.ok (none : Option Int) :
                        Except SqlErr (Option Int)) = .ok d0 := hd0
                    injection hd' with hd2
                    subst hd2
                    have h' : (Except.ok (some
                        { nodeName := n, output := JVal.jnull, startTime := 0,
                          executionTime := 0, executionStatus := "success" }) :
                        Except SqlErr (Option SqlDetail)) = .ok (some d) := h
                    injection h' with h2
                    injection h2 with h3
                    rw [← h3]
                | jnull => rw [hni] at hlen; exact Except.noConfusion hlen
                | jundefined => rw [hni] at hlen; exact Except.noConfusion hlen
                | jbool b => rw [hni] at hlen; exact Except.noConfusion hlen
                | jnum m => rw [hni] at hlen; exact Except.noConfusion hlen
                | jstr t => rw [hni] at hlen; exact Except.noConfusion hlen
                | jobj fs => rw [hni] at hlen; exact Except.noConfusion hlen

theorem extractAllDetails_startTime_zero (fuel : Nat) (elems : List JVal)
    (run_data : Option JVal) :
    ∀ (names : List String) (details : List SqlDetail),
      extractAllDetails fuel elems run_data names = .ok details →
      ∀ d ∈ details, d.startTime = 0
  | [], details, h => by
    simp only [extractAllDetails] at h
    injection h with h'
    subst h'
    intro d hd
    exact absurd hd (List.not_mem_nil d)
  | n :: rest, details, h => by
    simp only [extractAllDetails] at h
    cases h1 : extractSqlDetail fuel elems run_data n with
    | error e => simp only [h1] at h; exact Except.noConfusion h
    | ok dOpt =>
      simp only [h1] at h
      cases h2 : extractAllDetails fuel elems run_data rest with
      | error e => simp only [h2] at h; exact Except.noConfusion h
      | ok ds =>
        simp only [h2] at h
        injection h with h'
        have ih := extractAllDetails_startTime_zero fuel elems run_data rest ds h2
        intro d hd
        rw [← h'] at hd
        cases dOpt with
        | none => exact ih d hd
        | some x =>
          rcases List.mem_cons.mp hd with rfl | hd'
          · exact extractSqlDetail_startTime_zero fuel elems run_data n d h1
          · exact ih d hd'

theorem sqlFlowDetails_nil_of_zero {details : List SqlDetail}
    (h : ∀ d ∈ details, d.startTime = 0) : sqlFlowDetails details = [] := by
  have hf : details.filter (fun d => decide (0 < d.startTime)) = [] := by
    rw [List.filter_eq_nil]
    intro d hd
    rw [h d hd]
    decide
  simp only [sqlFlowDetails, hf]
  rfl

theorem buildExecutionBacktrace_not_ok {fuel : Nat} {tbl : List BacktraceRow}
    {pid : Int} {ed wf : Option JVal} {t : List BacktraceRow}
    (h : buildExecutionBacktrace fuel tbl pid ed wf = .ok t) : False := by
  rcases ed with _ | exec_data
  · simp [buildExecutionBacktrace] at h
  rcases exec_data with _ | _ | b | n | s | elems | fs
  case jarr =>
    simp only [buildExecutionBacktrace] at h
    cases hfind : findRunDataSql elems with
    | none => simp only [hfind] at h; exact Except.noConfusion h
    | some rdVal =>
      simp only [hfind] at h
      cases hcast : castInt (jTextOf rdVal) with
      | error e => simp only [hcast] at h; exact Except.noConfusion h
      | ok idxOpt =>
        simp only [hcast] at h
        by_cases hneg : idxOpt = some (-1)
        · rw [if_pos hneg] at h; exact Except.noConfusion h
        · rw [if_neg hneg] at h
          cases hkeys : jsonbObjectKeys (idxOpt.bind (jArrGet elems)) with
          | error e => simp only [hkeys] at h; exact Except.noConfusion h
          | ok names =>
            simp only [hkeys] at h
            cases hsl : sortLe strLeB names with
            | nil => simp only [hsl, List.isEmpty_nil, if_true] at h; exact Except.noConfusion h
            | cons nm nms =>
              simp only [hsl, List.isEmpty_cons, if_false, Bool.false_eq_true] at h
              cases hdet : extractAllDetails fuel elems (idxOpt.bind (jArrGet elems)) (nm :: nms) with
              | error e => simp only [hdet] at h; exact Except.noConfusion h
              | ok details =>
                simp only [hdet] at h
                have hz := extractAllDetails_startTime_zero fuel elems
                  (idxOpt.bind (jArrGet elems)) (nm :: nms) details hdet
                have hnil := sqlFlowDetails_nil_of_zero hz
                simp only [hnil, List.isEmpty_nil, if_true] at h
                exact Except.noConfusion h
  all_goals simp [buildExecutionBacktrace] at h

theorem buildExecutionBacktrace_error (fuel : Nat) (tbl : List BacktraceRow)
    (pid : Int) (ed wf : Option JVal) :
    ∃ e, buildExecutionBacktrace fuel tbl pid ed wf = .error e := by
  cases hres : buildExecutionBacktrace fuel tbl pid ed wf with
  | error e => exact ⟨e, rfl⟩
  | ok t => exact absurd hres fun hh => buildExecutionBacktrace_not_ok hh

theorem apiRows_mem_id (pid : Int) :
    ∀ (steps : List JVal) (rows : List BacktraceRow), apiRows pid steps = .ok rows →
      ∀ r ∈ rows, r.execution_id = pid
  | [], rows, h => by
    simp only [apiRows] at h
    injection h with h'
    subst h'
    intro r hr
    exact absurd hr (List.not_mem_nil r)
  | step :: rest, rows, h => by
    simp only [apiRows] at h
    cases hc : castInt (jFieldText (some step) "step") with
    | error e => simp only [hc] at h; exact Except.noConfusion h
    | ok sIdx =>
      simp only [hc] at h
      cases sIdx with
      | none => exact Except.noConfusion h
      | some nn =>
        cases hn : jFieldText (some step) "node_name" with
        | none => simp only [hn] at h; exact Except.noConfusion h
        | some node_name =>
          simp only [hn] at h
          cases hr : apiRows pid rest with
          | error e => simp only [hr] at h; exact Except.noConfusion h
          | ok rs =>
            simp only [hr] at h
            injection h with h'
            subst h'
            intro r hmem
            rcases List.mem_cons.mp hmem with rfl | hmem'
            · rfl
            · exact apiRows_mem_id pid rest rs hr r hmem'

theorem buildApi_ok_shape {tbl : List BacktraceRow} {pid : Int} {tr : Option JVal}
    {t : List BacktraceRow} (h : buildExecutionBacktraceApi tbl pid tr = .ok t) :
    ∃ rows, t = (tbl.filter fun r => r.execution_id != pid) ++ rows ∧
      (∀ r ∈ rows, r.execution_id = pid) ∧
      ((rows.map fun r => r.step_index)).Nodup := by
  rcases tr with _ | ej
  · simp only [buildExecutionBacktraceApi] at h
    injection h with h'
    refine ⟨_, h'.symm, ?_, ?_⟩
    · intro r hr
      rcases List.mem_singleton.mp hr with rfl
      rfl
    · simp
  · simp only [buildExecutionBacktraceApi] at h
    cases hdf : jField (some ej) "data_flow" with
    | none =>
      simp only [hdf] at h
      injection h with h'
      refine ⟨[], ?_, ?_, by simp⟩
      · rw [← h', List.append_nil]
      · intro r hr
        exact absurd hr (List.not_mem_nil r)
    | some df =>
      simp only [hdf] at h
      cases df with
      | jarr steps =>
        cases har : apiRows pid steps with
        | error e => simp only [har] at h; exact Except.noConfusion h
        | ok rows =>
          simp only [har] at h
          by_cases hnd : ((rows.map fun r => r.step_index)).Nodup
          · rw [if_pos hnd] at h
            injection h with h'
            exact ⟨rows, h'.symm, apiRows_mem_id pid steps rows har, hnd⟩
          · rw [if_neg hnd] at h
            exact Except.noConfusion h
      | jnull => exact Except.noConfusion h
      | jundefined => exact Except.noConfusion h
      | jbool b => exact Except.noConfusion h
      | jnum m => exact Except.noConfusion h
      | jstr s => exact Except.noConfusion h
      | jobj fs => exact Except.noConfusion h

theorem apiRows_shape (pid : Int) :
    ∀ (steps : List JVal) (rows : List BacktraceRow), apiRows pid steps = .ok rows →
      rows.length = steps.length ∧
      ∀ (j : Nat) (st : JVal) (row : BacktraceRow),
        steps.get? j = some st → rows.get? j = some row →
        row.execution_id = pid ∧
        row.input_json = jField (some st) "input" ∧
        row.output_json = jField (some st) "output" ∧
        ∀ k : Int, castInt (jFieldText (some st) "step") = .ok (some k) →
          row.step_index = k - 1
  | [], rows, h => by
    simp only [apiRows] at h
    injection h with h'
    subst h'
    refine ⟨rfl, ?_⟩
    intro j st row hst
    simp at hst
  | step :: rest, rows, h => by
    simp only [apiRows] at h
    cases hc : castInt (jFieldText (some step) "step") with
    | error e => simp only [hc] at h; exact Except.noConfusion h
    | ok sIdx =>
      simp only [hc] at h
      cases sIdx with
      | none => exact Except.noConfusion h
      | some n =>
        cases hn : jFieldText (some step) "node_name" with
        | none => simp only [hn] at h; exact Except.noConfusion h
        | some node_name =>
          simp only [hn] at h
          cases hr : apiRows pid rest with
          | error e => simp only [hr] at h; exact Except.noConfusion h
          | ok rs =>
            simp only [hr] at h
            injection h with h'
            subst h'
            obtain ⟨hlen, hcorr⟩ := apiRows_shape pid rest rs hr
            refine ⟨by simp [hlen], ?_⟩
            intro j st row hst hrow
            cases j with
            | zero =>
              simp only [List.get?] at hst hrow
              injection hst with hst'
              injection hrow with hrow'
              subst hst'
              subst hrow'
              refine ⟨rfl, rfl, rfl, ?_⟩
              intro k hk
              rw [hc] at hk
              injection hk with hk'
              injection hk' with hk''
              simp only []
              omega
            | succ j' =>
              simp only [List.get?] at hst hrow
              exact hcorr j' st row hst hrow

/-- C2 (amended): out-of-bounds pointer fallback.  In the SQL resolver
`hyly._resolve_exec_val` a digit-only string denoting an index at or
beyond the arena length — provided the value fits in a signed 64-bit
integer, larger digit strings raise a bigint-overflow error — is
returned unchanged, not an error; in the shell/JS
`resolveStringReferences` the out-of-bounds lookup `data[i]` is
`undefined`, so the resolver returns `undefined` rather than the
original string. -/
theorem out_of_bounds_fallback :
    (∀ (elems : List JVal) (s : String) (n : Nat),
        isDigitStr s = true → elems.length ≤ digitVal s → digitVal s < bigintBound →
        resolveExecVal (n + 1) (.jstr s) (.jarr elems) = .ok (.jstr s)) ∧
    (∀ (data : List JVal) (s : String) (path : String),
        isDigitStr s = true → data.length ≤ digitVal s →
        strIncludes path "headers." = false →
        resolveStringReferences 2 (.jstr s) data path = some .jundefined) := by
  constructor
  · intro elems s n hd hlen hbig
    show resolveChain (n + 1) (.jstr s) elems = .ok (.jstr s)
    simp only [resolveChain]
    rw [if_pos hd, if_neg (by omega), if_neg (by omega)]
  · intro data s path hd hlen hpath
    simp [resolveStringReferences, hd, hpath]
    rw [List.getElem?_eq_none (by omega)]
    simp [resolveStringReferences]

/-- Witness for the out-of-bounds fallback at the empty arena and the
pointer string "5". -/
theorem out_of_bounds_fallback_witness :
    resolveExecVal 1 (.jstr "5") (.jarr []) = .ok (.jstr "5") ∧
    resolveStringReferences 2 (.jstr "5") [] "" = some .jundefined :=
  ⟨out_of_bounds_fallback.1 [] "5" 0 (by decide) (by decide) (by decide),
   out_of_bounds_fallback.2 [] "5" "" (by decide) (by decide) (by decide)⟩

/-- C2 counterexample: over the one-slot arena the pointer "1" is out
of bounds, and the shell/JS resolver yields `undefined`, not the
original string "1" — `resolve("N", arena) == "N"` fails for this
implementation. -/
theorem out_of_bounds_fallback_counterexample :
    resolveStringReferences 2 (.jstr "1") [.jstr "a"] "" = some .jundefined ∧
    some JVal.jundefined ≠ some (JVal.jstr "1") :=
  ⟨rfl, fun h => JVal.noConfusion (Option.some.inj h)⟩

/-- C6 (amended): the header exemption applies exactly to digit strings
whose access path contains the substring `"headers."`, that is, values
reached through an object key strictly below a `headers` segment: there
the resolver returns the string unchanged regardless of the arena. -/
theorem headers_exemption (n : Nat) (s : String) (data : List JVal) (path : String)
    (hd : isDigitStr s = true) (hp : strIncludes path "headers." = true) :
    resolveStringReferences (n + 1) (.jstr s) data path = some (.jstr s) := by
  simp [resolveStringReferences, hd, hp]

/-- Witness for the header exemption: the numeric header value "0" at
path "headers.content-length" survives resolution over a one-slot
arena whose slot 0 would otherwise be substituted. -/
theorem headers_exemption_witness :
    resolveStringReferences 5 (.jstr "0") [.jstr "LIT"] "headers.content-length"
      = some (.jstr "0") :=
  headers_exemption 4 "0" [.jstr "LIT"] "headers.content-length" (by decide) (by decide)

/-- C6 counterexample: a digit string sitting in an array directly
under a `headers` key is nested under that key, but its path is just
"headers" — without the trailing dot the exemption does not fire and
the value is dereferenced to the arena slot. -/
theorem headers_exemption_counterexample :
    resolveStringReferences 9 (.jobj [("headers", .jarr [.jstr "0"])]) [.jstr "LIT"] ""
      = some (.jobj [("headers", .jarr [.jstr "LIT"])]) ∧
    JVal.jstr "LIT" ≠ JVal.jstr "0" :=
  ⟨rfl, fun h => absurd (JVal.jstr.inj h) (by decide)⟩

theorem ptrStepIdx_some {elems : List JVal} {v : JVal} {i : Nat}
    (h : ptrStepIdx elems v = some i) :
    i < elems.length ∧
      ∃ s, v = .jstr s ∧ i = digitVal s ∧ isDigitStr s = true ∧
        ¬ bigintBound ≤ digitVal s := by
  cases v <;> simp only [ptrStepIdx] at h <;> try exact Option.noConfusion h
  case jstr s =>
    split at h
    · rename_i hc
      injection h with h'
      subst h'
      simp only [Bool.and_eq_true, Bool.not_eq_true', decide_eq_true_eq,
        decide_eq_false_iff_not] at hc
      exact ⟨hc.2, s, rfl, rfl, hc.1.1, hc.1.2⟩
    · exact Option.noConfusion h

theorem ptrTrace_mem_lt (elems : List JVal) : ∀ (n : Nat) (v : JVal) (i : Nat),
    i ∈ ptrTrace elems n v → i < elems.length
  | 0, v, i, h => by simp [ptrTrace] at h
  | n + 1, v, i, h => by
    rw [ptrTrace] at h
    cases hs : ptrStepIdx elems v with
    | none => rw [hs] at h; simp at h
    | some j =>
      rw [hs] at h
      rcases List.mem_cons.mp h with rfl | h'
      · exact (ptrStepIdx_some hs).1
      · exact ptrTrace_mem_lt elems n (elems.getD j .jnull) i h'

theorem resolveChain_done_of_short (elems : List JVal) : ∀ (n : Nat) (v : JVal),
    (ptrTrace elems n v).length < n → resolveChain n v elems ≠ .outOfFuel
  | 0, v, h => by simp at h
  | n + 1, v, h => by
    cases hs : ptrStepIdx elems v with
    | none =>
      cases v with
      | jstr s =>
        simp only [ptrStepIdx] at hs
        split at hs
        · exact Option.noConfusion hs
        · rename_i hc
          simp only [resolveChain]
          by_cases h1 : isDigitStr s = true
          · rw [if_pos h1]
            by_cases h2 : bigintBound ≤ digitVal s
            · rw [if_pos h2]; simp
            · rw [if_neg h2]
              by_cases h3 : digitVal s < elems.length
              · exact absurd (by simp [h1, h2, h3]) hc
              · rw [if_neg h3]; simp
          · rw [if_neg h1]; simp
      | jnull => simp [resolveChain]
      | jundefined => simp [resolveChain]
      | jbool b => simp [resolveChain]
      | jnum m => simp [resolveChain]
      | jarr es => simp [resolveChain]
      | jobj fs => simp [resolveChain]
    | some i =>
      obtain ⟨hilen, s, rfl, hidx, hdig, hbig⟩ := ptrStepIdx_some hs
      have hred : resolveChain (n + 1) (.jstr s) elems =
          resolveChain n (elems.getD (digitVal s) .jnull) elems := by
        simp only [resolveChain]
        rw [if_pos hdig, if_neg hbig, if_pos (hidx ▸ hilen)]
      rw [hred]
      apply resolveChain_done_of_short elems n
      rw [ptrTrace, hs] at h
      subst hidx
      simpa using Nat.lt_of_succ_lt_succ (by simpa using h)

theorem trace_pigeonhole (elems : List JVal) (v : JVal)
    (h : (ptrTrace elems (elems.length + 1) v).Nodup) :
    (ptrTrace elems (elems.length + 1) v).length < elems.length + 1 := by
  by_contra hlen
  push_neg at hlen
  have hsub : (ptrTrace elems (elems.length + 1) v).toFinset ⊆
      Finset.range elems.length := by
    intro i hi
    rw [List.mem_toFinset] at hi
    exact Finset.mem_range.mpr (ptrTrace_mem_lt elems _ v i hi)
  have hcard := Finset.card_le_card hsub
  rw [List.toFinset_card_of_nodup h, Finset.card_range] at hcard
  omega

/-- C3 (amended): the SQL resolver terminates on every input whose
pointer chain never revisits an arena index — in particular on the DAG
data the platform produces — but on cyclic input it simply never
finishes, and no MalformedTraceError exists anywhere in the code. -/
theorem resolver_terminates_on_acyclic (elems : List JVal) (v : JVal)
    (h : (ptrTrace elems (elems.length + 1) v).Nodup) :
    ResolveTerminates v (.jarr elems) :=
  ⟨elems.length + 1,
   resolveChain_done_of_short elems (elems.length + 1) v (trace_pigeonhole elems v h)⟩

/-- Witness for acyclic termination on a one-slot arena. -/
theorem resolver_terminates_on_acyclic_witness :
    (ptrTrace [JVal.jstr "x"] 2 (.jstr "0")).Nodup ∧
    ResolveTerminates (.jstr "0") (.jarr [JVal.jstr "x"]) :=
  ⟨by decide, resolver_terminates_on_acyclic [JVal.jstr "x"] (.jstr "0") (by decide)⟩

/-- C3 counterexample: on the cyclic arena `["1", "0"]` the resolver
never terminates — every amount of fuel runs out, and no error of any
kind (let alone a MalformedTraceError, which the code does not define)
is signaled. -/
theorem resolver_cycle_counterexample :
    ¬ ResolveTerminates (.jstr "0") (.jarr cycArena) := by
  have key : ∀ m, resolveChain m (.jstr "0") cycArena = .outOfFuel ∧
      resolveChain m (.jstr "1") cycArena = .outOfFuel := by
    intro m
    induction m with
    | zero => exact ⟨rfl, rfl⟩
    | succ k ih => exact ⟨ih.2, ih.1⟩
  rintro ⟨n, hn⟩
  exact hn (key n).1

theorem resolveFields_spec :
    ∀ (n : Nat) (fields : List (String × JVal)) (data : List JVal) (path : String)
      (out : List (String × JVal)),
      resolveFields n fields data path = some out →
      out.map Prod.fst = fields.map Prod.fst ∧
      ∀ (j : Nat) (kv kv' : String × JVal),
        fields.get? j = some kv → out.get? j = some kv' →
        kv'.1 = kv.1 ∧
          ∃ m, resolveStringReferences m kv.2 data (newPath path kv.1) = some kv'.2
  | _, [], _, _, out, h => by
    simp only [resolveFields, Option.some.injEq] at h
    subst h
    refine ⟨rfl, ?_⟩
    intro j kv kv' hkv
    simp at hkv
  | 0, (k, v) :: rest, _, _, out, h => by
    simp [resolveFields] at h
  | n + 1, (k, v) :: rest, data, path, out, h => by
    simp only [resolveFields] at h
    cases hw : resolveStringReferences n v data (newPath path k) with
    | none => rw [hw] at h; simp at h
    | some w =>
      rw [hw] at h
      cases hws : resolveFields n rest data path with
      | none => rw [hws] at h; simp at h
      | some ws =>
        rw [hws] at h
        simp at h
        subst h
        obtain ⟨hkeys, hcorr⟩ := resolveFields_spec n rest data path ws hws
        refine ⟨by simp [hkeys], ?_⟩
        intro j kv kv' hkv hkv'
        cases j with
        | zero =>
          simp only [List.get?, Option.some.injEq] at hkv hkv'
          subst hkv
          subst hkv'
          exact ⟨rfl, n, hw⟩
        | succ j' =>
          simp only [List.get?] at hkv hkv'
          exact hcorr j' kv kv' hkv hkv'

theorem resolveElems_spec :
    ∀ (n : Nat) (elems data : List JVal) (path : String) (out : List JVal),
      resolveElems n elems data path = some out →
      out.length = elems.length ∧
      ∀ (j : Nat) (v w : JVal), elems.get? j = some v → out.get? j = some w →
        ∃ m, resolveStringReferences m v data path = some w
  | _, [], _, _, out, h => by
    simp only [resolveElems, Option.some.injEq] at h
    subst h
    refine ⟨rfl, ?_⟩
    intro j v w hv
    simp at hv
  | 0, v :: rest, _, _, out, h => by
    simp [resolveElems] at h
  | n + 1, v :: rest, data, path, out, h => by
    simp only [resolveElems] at h
    cases hw : resolveStringReferences n v data path with
    | none => rw [hw] at h; simp at h
    | some w =>
      rw [hw] at h
      cases hws : resolveElems n rest data path with
      | none => rw [hws] at h; simp at h
      | some ws =>
        rw [hws] at h
        simp at h
        subst h
        obtain ⟨hlen, hcorr⟩ := resolveElems_spec n rest data path ws hws
        refine ⟨by simp [hlen], ?_⟩
        intro j x y hx hy
        cases j with
        | zero =>
          simp only [List.get?, Option.some.injEq] at hx hy
          subst hx
          subst hy
          exact ⟨n, hw⟩
        | succ j' =>
          simp only [List.get?] at hx hy
          exact hcorr j' x y hx hy

/-- C7 (amended): the shell/JS resolver resolves every object field
recursively while preserving the keys, resolves every array element
recursively, and returns other non-pointer values (numbers, booleans,
null, non-numeric strings) unchanged; the SQL resolver
`hyly._resolve_exec_val` returns every non-string value — objects and
arrays included — unchanged without recursing into it, so pointers
nested inside composites stay unresolved on the SQL side. -/
theorem resolver_structure :
    (∀ (n : Nat) (fields : List (String × JVal)) (data : List JVal) (path : String),
        resolveStringReferences (n + 1) (.jobj fields) data path =
          (resolveFields n fields data path).map .jobj) ∧
    (∀ (n : Nat) (fields : List (String × JVal)) (data : List JVal) (path : String)
        (out : List (String × JVal)),
        resolveFields n fields data path = some out →
        out.map Prod.fst = fields.map Prod.fst) ∧
    (∀ (n : Nat) (elems data : List JVal) (path : String),
        resolveStringReferences (n + 1) (.jarr elems) data path =
          (resolveElems n elems data path).map .jarr) ∧
    (∀ (n : Nat) (fields : List (String × JVal)) (data : List JVal) (path : String)
        (out : List (String × JVal)) (j : Nat) (kv kv' : String × JVal),
        resolveFields n fields data path = some out →
        fields.get? j = some kv → out.get? j = some kv' →
        kv'.1 = kv.1 ∧
          ∃ m, resolveStringReferences m kv.2 data (newPath path kv.1) = some kv'.2) ∧
    (∀ (n : Nat) (elems data : List JVal) (path : String) (out : List JVal)
        (j : Nat) (v w : JVal),
        resolveElems n elems data path = some out →
        elems.get? j = some v → out.get? j = some w →
        ∃ m, resolveStringReferences m v data path = some w) ∧
    (∀ (n : Nat) (data : List JVal) (path : String) (k : Int) (b : Bool) (s : String),
        resolveStringReferences (n + 1) (.jnum k) data path = some (.jnum k) ∧
        resolveStringReferences (n + 1) (.jbool b) data path = some (.jbool b) ∧
        resolveStringReferences (n + 1) .jnull data path = some .jnull ∧
        (isDigitStr s = false →
          resolveStringReferences (n + 1) (.jstr s) data path = some (.jstr s))) ∧
    (∀ (n : Nat) (v arr : JVal), (∀ s, v ≠ .jstr s) → resolveExecVal (n + 1) v arr = .ok v) := by
  refine ⟨fun n fields data path => by simp [resolveStringReferences],
          fun n fields data path out h => (resolveFields_spec n fields data path out h).1,
          fun n elems data path => by simp [resolveStringReferences],
          fun n fields data path out j kv kv' h h1 h2 =>
            (resolveFields_spec n fields data path out h).2 j kv kv' h1 h2,
          fun n elems data path out j v w h h1 h2 =>
            (resolveElems_spec n elems data path out h).2 j v w h1 h2,
          fun n data path k b s =>
            ⟨by simp [resolveStringReferences], by simp [resolveStringReferences],
             by simp [resolveStringReferences], fun hs => by simp [resolveStringReferences, hs]⟩,
          fun n v arr hv => ?_⟩
  cases arr with
  | jarr elems =>
    show resolveChain (n + 1) v elems = .ok v
    cases v with
    | jstr s => exact absurd rfl (hv s)
    | jnull => rfl
    | jundefined => rfl
    | jbool b => rfl
    | jnum k => rfl
    | jarr es => rfl
    | jobj fs => rfl
  | jnull => rfl
  | jundefined => rfl
  | jbool b => rfl
  | jnum k => rfl
  | jstr s => rfl
  | jobj fs => rfl

/-- Witness for the resolver-structure theorem: a one-field object and
a one-element array over a one-slot arena, the scalars, and the SQL
resolver on a number. -/
theorem resolver_structure_witness :
    (resolveStringReferences 3 (.jobj [("a", .jnum 1)]) [] "" =
      (resolveFields 2 [("a", .jnum 1)] [] "").map .jobj) ∧
    ([("a", JVal.jstr "LIT")].map Prod.fst = [("a", JVal.jstr "0")].map Prod.fst) ∧
    (resolveStringReferences 3 (.jarr [.jnum 1]) [] "" =
      (resolveElems 2 [.jnum 1] [] "").map .jarr) ∧
    (("a", JVal.jstr "LIT").1 = ("a", JVal.jstr "0").1 ∧
      ∃ m, resolveStringReferences m (JVal.jstr "0") [.jstr "LIT"] (newPath "" "a") =
        some (JVal.jstr "LIT")) ∧
    (∃ m, resolveStringReferences m (JVal.jstr "0") [.jstr "LIT"] "" =
      some (JVal.jstr "LIT")) ∧
    (resolveStringReferences 1 (.jnum 7) [] "" = some (.jnum 7)) ∧
    (resolveStringReferences 1 (.jbool true) [] "" = some (.jbool true)) ∧
    (resolveStringReferences 1 .jnull [] "" = some .jnull) ∧
    (resolveStringReferences 1 (.jstr "x") [] "" = some (.jstr "x")) ∧
    (resolveExecVal 5 (.jnum 3) (.jarr [.jstr "LIT"]) = .ok (.jnum 3)) := by
  refine ⟨resolver_structure.1 2 [("a", .jnum 1)] [] "",
          resolver_structure.2.1 3 [("a", .jstr "0")] [.jstr "LIT"] ""
            [("a", .jstr "LIT")] (by rfl),
          resolver_structure.2.2.1 2 [.jnum 1] [] "",
          resolver_structure.2.2.2.1 3 [("a", .jstr "0")] [.jstr "LIT"] ""
            [("a", .jstr "LIT")] 0 ("a", .jstr "0") ("a", .jstr "LIT")
            (by rfl) (by rfl) (by rfl),
          resolver_structure.2.2.2.2.1 3 [.jstr "0"] [.jstr "LIT"] ""
            [.jstr "LIT"] 0 (.jstr "0") (.jstr "LIT") (by rfl) (by rfl) (by rfl),
          (resolver_structure.2.2.2.2.2.1 0 [] "" 7 true "x").1,
          (resolver_structure.2.2.2.2.2.1 0 [] "" 7 true "x").2.1,
          (resolver_structure.2.2.2.2.2.1 0 [] "" 7 true "x").2.2.1,
          (resolver_structure.2.2.2.2.2.1 0 [] "" 7 true "x").2.2.2 (by decide),
          resolver_structure.2.2.2.2.2.2 4 (.jnum 3) (.jarr [.jstr "LIT"])
            (fun s h => JVal.noConfusion h)⟩

/-- C7 counterexample: the SQL resolver returns an object untouched:
its field "a" keeps the unresolved pointer "0" even though the same
resolver maps that pointer to the arena slot "LIT". -/
theorem resolver_structure_counterexample :
    resolveExecVal 5 (.jobj [("a", .jstr "0")]) (.jarr [.jstr "LIT"]) =
      .ok (.jobj [("a", .jstr "0")]) ∧
    resolveExecVal 5 (.jstr "0") (.jarr [.jstr "LIT"]) = .ok (.jstr "LIT") ∧
    JVal.jstr "0" ≠ JVal.jstr "LIT" :=
  ⟨rfl, rfl, fun h => absurd (JVal.jstr.inj h) (by decide)⟩

theorem findRunDataSql_eq_none (elems : List JVal)
    (h : ∀ fields, JVal.jobj fields ∈ elems → fields.lookup "runData" = none) :
    findRunDataSql elems = none := by
  induction elems with
  | nil => rfl
  | cons v rest ih =>
    have ihr := ih fun fs hfs => h fs (List.mem_cons_of_mem v hfs)
    cases v with
    | jobj fields =>
      simp only [findRunDataSql]
      rw [h fields (by simp)]
      exact ihr
    | jnull => simpa [findRunDataSql] using ihr
    | jundefined => simpa [findRunDataSql] using ihr
    | jbool b => simpa [findRunDataSql] using ihr
    | jnum k => simpa [findRunDataSql] using ihr
    | jstr s => simpa [findRunDataSql] using ihr
    | jarr es => simpa [findRunDataSql] using ihr

theorem findRunDataScan_no_carrier (arena : List JVal)
    (h : ∀ fields, JVal.jobj fields ∈ arena → fields.lookup "runData" = none) :
    findRunDataScan arena = .typeError ∨ findRunDataScan arena = .notFound := by
  induction arena with
  | nil => exact Or.inr rfl
  | cons v rest ih =>
    have ihr := ih fun fs hfs => h fs (List.mem_cons_of_mem v hfs)
    cases v with
    | jnull => exact Or.inl rfl
    | jobj fields =>
      have hget : jsGet (.jobj fields) "runData" = .jundefined := by
        simp [jsGet, h fields (by simp)]
      simpa [findRunDataScan, hget, jsTruthy] using ihr
    | jundefined => simpa [findRunDataScan] using ihr
    | jbool b => simpa [findRunDataScan] using ihr
    | jnum k => simpa [findRunDataScan] using ihr
    | jstr s => simpa [findRunDataScan] using ihr
    | jarr es => simpa [findRunDataScan] using ihr

theorem findRunDataScan_eq_notFound (arena : List JVal)
    (hnull : JVal.jnull ∉ arena)
    (h : ∀ fields, JVal.jobj fields ∈ arena → fields.lookup "runData" = none) :
    findRunDataScan arena = .notFound := by
  induction arena with
  | nil => rfl
  | cons v rest ih =>
    have ihr := ih (fun hm => hnull (List.mem_cons_of_mem v hm))
      (fun fs hfs => h fs (List.mem_cons_of_mem v hfs))
    cases v with
    | jnull => exact absurd (by simp) hnull
    | jobj fields =>
      have hget : jsGet (.jobj fields) "runData" = .jundefined := by
        simp [jsGet, h fields (by simp)]
      simpa [findRunDataScan, hget, jsTruthy] using ihr
    | jundefined => simpa [findRunDataScan] using ihr
    | jbool b => simpa [findRunDataScan] using ihr
    | jnum k => simpa [findRunDataScan] using ihr
    | jstr s => simpa [findRunDataScan] using ihr
    | jarr es => simpa [findRunDataScan] using ihr

/-- C5 (amended): an arena with no object carrying a runData field never
yields anything that looks like a success.  The SQL reconstructor raises
its distinct no-runData error (nothing is persisted, the transaction
rolls back); the API client returns its labeled
'RunData index not found in execution' failure whenever the scan
completes — an arena containing a null slot instead crashes the scan
with a TypeError surfaced as a generic API error — and in no case is a
path result reported. -/
theorem no_run_data_failure :
    (∀ (fuel : Nat) (tbl : List BacktraceRow) (pid : Int) (elems : List JVal)
        (wf : Option JVal),
        (∀ fields, JVal.jobj fields ∈ elems → fields.lookup "runData" = none) →
        buildExecutionBacktrace fuel tbl pid (some (.jarr elems)) wf = .error .noRunData) ∧
    (∀ arena : List JVal,
        JVal.jnull ∉ arena →
        (∀ fields, JVal.jobj fields ∈ arena → fields.lookup "runData" = none) →
        analyzeExecutionPath arena = .noRunData) ∧
    (∀ (arena : List JVal) (path : List PathStep) (tn : Nat),
        (∀ fields, JVal.jobj fields ∈ arena → fields.lookup "runData" = none) →
        analyzeExecutionPath arena ≠ .analyzed path tn) := by
  refine ⟨?_, ?_, ?_⟩
  · intro fuel tbl pid elems wf h
    simp [buildExecutionBacktrace, findRunDataSql_eq_none elems h]
  · intro arena hnull h
    simp [analyzeExecutionPath, findRunDataScan_eq_notFound arena hnull h]
  · intro arena path tn h
    rcases findRunDataScan_no_carrier arena h with hc | hc <;>
      simp [analyzeExecutionPath, hc]

/-- Witness for the no-run-data failure: a two-slot arena whose only
object has no runData field. -/
theorem no_run_data_failure_witness :
    buildExecutionBacktrace 5 [] 3 (some (.jarr [.jnum 5, .jobj [("x", .jnum 1)]])) none
      = .error .noRunData ∧
    analyzeExecutionPath [.jnum 5, .jobj [("x", .jnum 1)]] = .noRunData := by
  constructor
  · exact no_run_data_failure.1 5 [] 3 [.jnum 5, .jobj [("x", .jnum 1)]] none (by
      intro fields hf
      simp at hf
      subst hf
      rfl)
  · exact no_run_data_failure.2.1 [.jnum 5, .jobj [("x", .jnum 1)]] (by simp) (by
      intro fields hf
      simp at hf
      subst hf
      rfl)

/-- C5 counterexample: the arena `[null]` carries no runData object, yet
the API client's scan crashes on the null slot (`typeof null` is
'object' and `null.runData` throws), so the failure is a generic
TypeError-backed API error rather than the labeled no-run-data
failure the claim requires. -/
theorem no_run_data_failure_counterexample :
    analyzeExecutionPath [JVal.jnull] = .typeError ∧
    PathAnalysis.typeError ≠ PathAnalysis.noRunData ∧
    (∀ fields, JVal.jobj fields ∈ [JVal.jnull] → fields.lookup "runData" = none) := by
  refine ⟨rfl, fun h => PathAnalysis.noConfusion h, ?_⟩
  intro fields hf
  simp at hf

/-- C4 (amended): the SQL persistence path filters on start time —
every record surviving the `WHERE startTime > 0` collection of lines
192-195 has a strictly positive start time — but under PostgreSQL's
text-key reading of `node_info ->> '0'` every record the extraction
loop yields has start time 0, so the filtered list is always empty and
`hyly.build_execution_backtrace` raises on every input before
persisting anything; the shell/JS data_flow applies no start-time
filter at all (see the counterexample). -/
theorem start_time_filter :
    (∀ (details : List SqlDetail) (d : SqlDetail), d ∈ sqlFlowDetails details →
      0 < d.startTime) ∧
    (∀ (fuel : Nat) (elems : List JVal) (run_data : Option JVal)
        (names : List String) (details : List SqlDetail),
      extractAllDetails fuel elems run_data names = .ok details →
      ∀ d ∈ details, d.startTime = 0) ∧
    (∀ (fuel : Nat) (tbl : List BacktraceRow) (pid : Int) (ed wf : Option JVal),
      ∃ e, buildExecutionBacktrace fuel tbl pid ed wf = .error e) :=
  ⟨fun details d hd => sqlFlowDetails_pos details d hd,
   fun fuel elems run_data names details h =>
     extractAllDetails_startTime_zero fuel elems run_data names details h,
   fun fuel tbl pid ed wf => buildExecutionBacktrace_error fuel tbl pid ed wf⟩

/-- Witness for the start-time filter: a positive-start record survives
the filter, the sample arena's extraction yields exactly one record
with start time 0, and the sample build raises. -/
theorem start_time_filter_witness :
    (0 : Int) <
      ({ nodeName := "A", output := JVal.jnull, startTime := 5, executionTime := 0,
         executionStatus := "success" } : SqlDetail).startTime ∧
    (∀ d ∈ [({ nodeName := "A", output := JVal.jnull, startTime := 0,
               executionTime := 0, executionStatus := "success" } : SqlDetail)],
       d.startTime = 0) ∧
    ∃ e, buildExecutionBacktrace 10 [] 7 (some sampleExecData) none = .error e :=
  ⟨start_time_filter.1
     [{ nodeName := "A", output := JVal.jnull, startTime := 5, executionTime := 0,
        executionStatus := "success" }] _
     (show ({ nodeName := "A", output := JVal.jnull, startTime := 5,
              executionTime := 0, executionStatus := "success" } : SqlDetail) ∈
        sqlFlowDetails [{ nodeName := "A", output := JVal.jnull, startTime := 5,
                          executionTime := 0, executionStatus := "success" }] from
      List.mem_singleton.mpr rfl),
   start_time_filter.2.1 10 sampleArena (some (.jobj [("A", .jstr "2")])) ["A"]
     [{ nodeName := "A", output := JVal.jnull, startTime := 0, executionTime := 0,
        executionStatus := "success" }] rfl,
   start_time_filter.2.2 10 [] 7 (some sampleExecData) none⟩

/-- C4 counterexample: a node whose record has no startTime gets the
`|| 0` default and still appears in the x-ray data_flow — the shell/JS
reconstruction does not exclude records with startTime <= 0. -/
theorem start_time_filter_counterexample :
    nodeDetails 20 noTimingRunData =
      [{ nodeName := "A", input := none, output := none, startTime := .jnum 0,
         executionTime := .jnum 0, executionStatus := .jstr "error" }] ∧
    xrayFlow 20 noTimingRunData =
      [{ step := 1, node_name := "A", input := none, output := none,
         execution_time_ms := .jnum 0, execution_status := .jstr "error",
         goes_to := sentinelEnd }] ∧
    ¬ (0 : Int) > 0 :=
  ⟨rfl, rfl, by decide⟩

/-- C1 (amended): for every runData map whose extracted node records
have numeric, pairwise-distinct, strictly positive start times and
non-empty node names, the x-ray data_flow lists the records in
strictly increasing start-time order, numbers the steps 1..N, links
every step's goes_to to the next step's node_name, and gives the last
step the literal sentinel.  (An empty successor name would instead
yield the JS `|| 'UNKNOWN'` fallback, which is what the added
non-empty-name hypothesis rules out.) -/
theorem execution_flow_ordering (fuel : Nat) (runData : List (String × JVal))
    (hpos : ∀ d ∈ nodeDetails fuel runData, isPosNum d.startTime = true)
    (hdist : ((nodeDetails fuel runData).map startKey).Nodup)
    (hname : ∀ d ∈ nodeDetails fuel runData, d.nodeName ≠ "") :
    (sortByStart (nodeDetails fuel runData)).Pairwise
      (fun a b => startKey a < startKey b) ∧
    (xrayFlow fuel runData).map (fun s => s.node_name) =
      (sortByStart (nodeDetails fuel runData)).map (fun d => d.nodeName) ∧
    (xrayFlow fuel runData).map (fun s => s.step) =
      List.range' 1 (nodeDetails fuel runData).length ∧
    List.Chain' (fun a b => a.goes_to = b.node_name) (xrayFlow fuel runData) ∧
    ∀ s : FlowStep, (xrayFlow fuel runData).getLast? = some s →
      s.goes_to = sentinelEnd := by
  refine ⟨sortByKey_pairwise_lt hdist, executionFlow_map_name 0 _, ?_, ?_, ?_⟩
  · show (executionFlow 0 (sortByStart (nodeDetails fuel runData))).map
        (fun s => s.step) = _
    rw [executionFlow_map_step 0 _]
    have : (sortByStart (nodeDetails fuel runData)).length =
        (nodeDetails fuel runData).length :=
      (sortByKey_perm startKey _).length_eq
    rw [this]
  · exact executionFlow_chain 0 _ fun d hd =>
      hname d ((sortByKey_perm startKey _).mem_iff.mp hd)
  · intro s hs
    exact executionFlow_getLast_goesTo 0 _ s hs

/-- Witness for the flow-ordering theorem on the two-node sample
runData (start times 100 and 200, names "Start" and "End"). -/
theorem execution_flow_ordering_witness :
    (sortByStart (nodeDetails 20 sampleRunData)).Pairwise
      (fun a b => startKey a < startKey b) ∧
    (xrayFlow 20 sampleRunData).map (fun s => s.node_name) =
      (sortByStart (nodeDetails 20 sampleRunData)).map (fun d => d.nodeName) ∧
    (xrayFlow 20 sampleRunData).map (fun s => s.step) =
      List.range' 1 (nodeDetails 20 sampleRunData).length ∧
    List.Chain' (fun a b => a.goes_to = b.node_name) (xrayFlow 20 sampleRunData) ∧
    ∀ s : FlowStep, (xrayFlow 20 sampleRunData).getLast? = some s →
      s.goes_to = sentinelEnd :=
  execution_flow_ordering 20 sampleRunData (by decide) (by decide) (by decide)

/-- C1 counterexample: a runData map with distinct positive start times
whose later-starting node is named by the empty string satisfies every
hypothesis of the claim, yet step 1's goes_to is the literal fallback
"UNKNOWN" and not the empty node_name of step 2. -/
theorem execution_flow_ordering_counterexample :
    xrayFlow 20 emptyNameRunData =
      [{ step := 1, node_name := "A", input := none, output := none,
         execution_time_ms := .jnum 0, execution_status := .jstr "success",
         goes_to := "UNKNOWN" },
       { step := 2, node_name := "", input := none, output := none,
         execution_time_ms := .jnum 0, execution_status := .jstr "success",
         goes_to := sentinelEnd }] ∧
    ("UNKNOWN" : String) ≠ "" ∧
    (∀ d ∈ nodeDetails 20 emptyNameRunData, isPosNum d.startTime = true) ∧
    ((nodeDetails 20 emptyNameRunData).map startKey).Nodup :=
  ⟨rfl, by decide, by decide, by decide⟩

/-- C8: the direct persist path can never complete a persist: for every
table, execution id, execution document and workflow document,
`hyly.build_execution_backtrace` returns an error before reaching its
INSERT loop (every extracted record's start time collapses to 0, the
filter empties the details and the loop bound is NULL), so no sequence
of calls through it ever stores rows, and the raised error rolls its
DELETE back; the api persister `hyly.build_execution_backtrace_api`
does implement delete-then-insert replace semantics: after a second
successful run for the same id the stored rows for that id are exactly
the second run's rows, with pairwise-distinct step indices and no
leftover from the first run or from before. -/
theorem persist_replace :
    (∀ (fuel : Nat) (tbl : List BacktraceRow) (pid : Int) (ed wf : Option JVal)
        (t : List BacktraceRow), buildExecutionBacktrace fuel tbl pid ed wf ≠ .ok t) ∧
    (∀ (tbl t1 t2 : List BacktraceRow) (pid : Int) (tr1 tr2 : Option JVal),
        buildExecutionBacktraceApi tbl pid tr1 = .ok t1 →
        buildExecutionBacktraceApi t1 pid tr2 = .ok t2 →
        ∃ rows : List BacktraceRow,
          t2 = (t1.filter fun r => r.execution_id != pid) ++ rows ∧
          t2.filter (fun r => r.execution_id == pid) = rows ∧
          ((rows.map fun r => r.step_index)).Nodup ∧
          ∀ r ∈ t2, r.execution_id = pid → r ∈ rows) := by
  constructor
  · intro fuel tbl pid ed wf t hok
    exact buildExecutionBacktrace_not_ok hok
  · intro tbl t1 t2 pid tr1 tr2 h1 h2
    obtain ⟨rows, ht2, hid, hnd⟩ := buildApi_ok_shape h2
    refine ⟨rows, ht2, ?_, hnd, ?_⟩
    · subst ht2
      rw [List.filter_append]
      have ha : (t1.filter fun r => r.execution_id != pid).filter
          (fun r => r.execution_id == pid) = [] := by
        rw [List.filter_eq_nil]
        intro a hmem
        have := (List.mem_filter.mp hmem).2
        simp only [bne_iff_ne, ne_eq] at this
        simp [this]
      have hb : rows.filter (fun r => r.execution_id == pid) = rows := by
        rw [List.filter_eq_self]
        intro a hmem
        simp [hid a hmem]
      rw [ha, hb, List.nil_append]
    · intro r hr hrpid
      subst ht2
      rcases List.mem_append.mp hr with hcl | hbr
      · have hf := (List.mem_filter.mp hcl).2
        simp only [bne_iff_ne, ne_eq] at hf
        exact absurd hrpid hf
      · exact hbr

/-- Witness for persist-replace: the sample build errors out rather
than persisting, and two successive api persists of the sample result
for execution 3 leave exactly the one-row flow. -/
theorem persist_replace_witness :
    buildExecutionBacktrace 10 [] 7 (some sampleExecData) none ≠ .ok [] ∧
    ∃ rows : List BacktraceRow,
      [sampleApiRow] = ([sampleApiRow].filter fun r => r.execution_id != 3) ++ rows ∧
      [sampleApiRow].filter (fun r => r.execution_id == 3) = rows ∧
      ((rows.map fun r => r.step_index)).Nodup ∧
      ∀ r ∈ [sampleApiRow], r.execution_id = 3 → r ∈ rows :=
  ⟨persist_replace.1 10 [] 7 (some sampleExecData) none [],
   persist_replace.2 [] [sampleApiRow] [sampleApiRow] 3 (some sampleApiResult)
     (some sampleApiResult) rfl rfl⟩

/-- C9: the INSERT loop of the direct persist path (lines 241-254)
writes every row's input_json as the literal `'{}'::jsonb` placeholder
(the source comments "Input will be added in future iteration"), not
the step's resolved input — and the loop is unreachable anyway, since
the build raises on every input; the api path persists the flow step's
input and output fields verbatim. -/
theorem persisted_input_output :
    (∀ (pid : Int) (nodes : List JVal) (i : Nat) (details : List SqlDetail)
        (r : BacktraceRow), r ∈ buildRows pid nodes i details →
        r.input_json = some (.jobj []) ∧
          ∃ d, d ∈ details ∧ r.node_name = d.nodeName ∧
            r.output_json = some d.output) ∧
    (∀ (pid : Int) (steps : List JVal) (rows : List BacktraceRow) (j : Nat)
        (st : JVal) (row : BacktraceRow),
        apiRows pid steps = .ok rows → steps.get? j = some st →
        rows.get? j = some row →
        row.input_json = jField (some st) "input" ∧
        row.output_json = jField (some st) "output") := by
  constructor
  · intro pid nodes i details r hr
    obtain ⟨_, hi, d, hd, hn, ho⟩ := buildRows_mem pid nodes i details r hr
    exact ⟨hi, d, hd, hn, ho⟩
  · intro pid steps rows j st row h hst hrow
    obtain ⟨_, hcorr⟩ := apiRows_shape pid steps rows h
    obtain ⟨_, hin, hout, _⟩ := hcorr j st row hst hrow
    exact ⟨hin, hout⟩

/-- Witness for the persisted input and output: the one row built from
a positive-start record carries the placeholder input, and the one-step
api flow's row carries the step's input and output verbatim. -/
theorem persisted_input_output_witness :
    (({ execution_id := 7, step_index := 0, node_uuid := none, node_name := "A",
        input_json := some (.jobj []),
        output_json := some (.jarr [.jobj [("value", .jnum 42)]]),
        next_node_uuid := none, next_node_name := none } : BacktraceRow).input_json
       = some (.jobj []) ∧
     ∃ d, d ∈ [({ nodeName := "A", output := JVal.jarr [.jobj [("value", .jnum 42)]],
                  startTime := 5, executionTime := 0,
                  executionStatus := "success" } : SqlDetail)] ∧
       ({ execution_id := 7, step_index := 0, node_uuid := none, node_name := "A",
          input_json := some (.jobj []),
          output_json := some (.jarr [.jobj [("value", .jnum 42)]]),
          next_node_uuid := none, next_node_name := none } : BacktraceRow).node_name
         = d.nodeName ∧
       ({ execution_id := 7, step_index := 0, node_uuid := none, node_name := "A",
          input_json := some (.jobj []),
          output_json := some (.jarr [.jobj [("value", .jnum 42)]]),
          next_node_uuid := none, next_node_name := none } : BacktraceRow).output_json
         = some d.output) ∧
    (sampleApiRow.input_json = jField (some sampleApiStep) "input" ∧
     sampleApiRow.output_json = jField (some sampleApiStep) "output") :=
  ⟨persisted_input_output.1 7 [] 0
     [{ nodeName := "A", output := JVal.jarr [.jobj [("value", .jnum 42)]],
        startTime := 5, executionTime := 0, executionStatus := "success" }]
     { execution_id := 7, step_index := 0, node_uuid := none, node_name := "A",
       input_json := some (.jobj []),
       output_json := some (.jarr [.jobj [("value", .jnum 42)]]),
       next_node_uuid := none, next_node_name := none }
     (show _ ∈ buildRows 7 [] 0
        [{ nodeName := "A", output := JVal.jarr [.jobj [("value", .jnum 42)]],
           startTime := 5, executionTime := 0, executionStatus := "success" }] from
      List.mem_singleton.mpr rfl),
   persisted_input_output.2 3 [sampleApiStep] [sampleApiRow] 0 sampleApiStep
     sampleApiRow rfl rfl rfl⟩

/-- C10: in both persistence paths the step indices written are 0-based
and contiguous: the direct path's INSERT loop (lines 245-248) writes
the i-th flow record (1-based) with step_index i-1, giving indices
0..N-1 — a statement about the loop itself, which no input ever
reaches because the build raises first — the api build writes
`step - 1` so a flow numbered 1..N produces indices 0..N-1, and the
no-temp-result placeholder row is written with step_index 0. -/
theorem step_index_zero_based :
    (∀ (pid : Int) (nodes : List JVal) (details : List SqlDetail),
        (buildRows pid nodes 0 details).map (fun r => r.step_index) =
          (List.range details.length).map (fun n : Nat => (n : Int))) ∧
    (∀ (pid : Int) (steps : List JVal) (rows : List BacktraceRow),
        apiRows pid steps = .ok rows →
        (∀ (j : Nat) (st : JVal), steps.get? j = some st →
          castInt (jFieldText (some st) "step") = .ok (some ((j : Int) + 1))) →
        rows.map (fun r => r.step_index) =
          (List.range steps.length).map (fun n : Nat => (n : Int))) ∧
    (∀ (tbl : List BacktraceRow) (pid : Int),
        ∃ row : BacktraceRow,
          buildExecutionBacktraceApi tbl pid none =
            .ok ((tbl.filter fun r => r.execution_id != pid) ++ [row]) ∧
          row.step_index = 0) := by
  refine ⟨?_, ?_, ?_⟩
  · intro pid nodes details
    rw [buildRows_map_stepIdx, ← List.range_eq_range']
  · intro pid steps rows h hsteps
    obtain ⟨hlen, hcorr⟩ := apiRows_shape pid steps rows h
    apply List.ext
    intro j
    rw [List.get?_map, List.get?_map]
    by_cases hj : j < steps.length
    · obtain ⟨st, hst⟩ : ∃ st, steps.get? j = some st := by
        cases hs : steps.get? j with
        | none => rw [List.get?_eq_none] at hs; omega
        | some st => exact ⟨st, rfl⟩
      obtain ⟨row, hrow⟩ : ∃ row, rows.get? j = some row := by
        cases hr : rows.get? j with
        | none => rw [List.get?_eq_none] at hr; omega
        | some row => exact ⟨row, rfl⟩
      have hsi := (hcorr j st row hst hrow).2.2.2 ((j : Int) + 1) (hsteps j st hst)
      rw [hrow, List.get?_range hj]
      simp only [Option.map_some', hsi]
      congr 1
      omega
    · have hs1 : steps.get? j = none := List.get?_eq_none.mpr (by omega)
      have hs2 : rows.get? j = none := List.get?_eq_none.mpr (by omega)
      have hs3 : (List.range steps.length).get? j = none :=
        List.get?_eq_none.mpr (by simp only [List.length_range]; omega)
      rw [hs2, hs3]
      rfl
  · intro tbl pid
    exact ⟨{ execution_id := pid, step_index := 0, node_uuid := none,
             node_name := "EXTERNAL_PROCESSING_REQUIRED",
             input_json := some (.jobj [("message",
               .jstr "Call external API to process this execution")]),
             output_json := some (.jobj [("endpoint",
               .jstr ("http://172.23.0.9:3001/execution/" ++ toString pid))]),
             next_node_uuid := none, next_node_name := none }, rfl, rfl⟩

/-- Witness for the 0-based step indices: a two-record INSERT-loop run,
a one-step api flow numbered 1, and the placeholder insert. -/
theorem step_index_zero_based_witness :
    ((buildRows 3 []
        0 [({ nodeName := "A", output := JVal.jnull, startTime := 1,
              executionTime := 0, executionStatus := "success" } : SqlDetail),
           ({ nodeName := "B", output := JVal.jnull, startTime := 2,
              executionTime := 0, executionStatus := "success" } : SqlDetail)]).map
        (fun r => r.step_index) =
      (List.range 2).map (fun n : Nat => (n : Int))) ∧
    (([{ execution_id := 3, step_index := 0, node_uuid := none, node_name := "A",
         input_json := none, output_json := none,
         next_node_uuid := none, next_node_name := none }] : List BacktraceRow).map
        (fun r => r.step_index) =
      (List.range ([JVal.jobj [("step", .jnum 1), ("node_name", .jstr "A")]].length)).map
        (fun n : Nat => (n : Int))) ∧
    (∃ row : BacktraceRow,
      buildExecutionBacktraceApi [] 3 none =
        .ok ((([] : List BacktraceRow).filter fun r => r.execution_id != 3) ++ [row]) ∧
      row.step_index = 0) :=
  ⟨step_index_zero_based.1 3 []
     [{ nodeName := "A", output := JVal.jnull, startTime := 1, executionTime := 0,
        executionStatus := "success" },
      { nodeName := "B", output := JVal.jnull, startTime := 2, executionTime := 0,
        executionStatus := "success" }],
   step_index_zero_based.2.1 3 [.jobj [("step", .jnum 1), ("node_name", .jstr "A")]] _ rfl
     (by
       intro j st hs
       cases j with
       | zero =>
         injection hs with hs'
         subst hs'
         rfl
       | succ j' => simp at hs),
   step_index_zero_based.2.2 [] 3⟩
